import Mathlib

/-!
Verification of the smart_planner schedule-analysis and plan-consolidation
engine (smart_planner/agents/calendar_agent.py, smart_planner/main.py,
smart_planner/models/schemas.py), as a shallow embedding in Lean.

Modelling conventions:
* `datetime.date` is a triple of components (year, month, day); its proleptic
  ordinal (used by datetime arithmetic) is computed by `PyDate.toOrd`.
* `datetime.datetime` is `PyDT`: a date, a wall-clock time-of-day in
  microseconds, and an optional UTC offset in microseconds (`none` = naive).
  Comparison, subtraction and equality of datetimes follow Python semantics:
  naive/naive and aware/aware compare by instant key (for component-valid
  datetimes Python's component-lexicographic order coincides with the ordinal
  key order), and a naive/aware comparison raises `TypeError`, modelled by
  `Except.error`.  `astimezone` is modelled instant-correctly; its wall
  components are left un-normalised (no observable of the program under
  verification inspects the wall components of an `astimezone` result).
* Python `list.sort`, being a stable sort by a total preorder, is modelled by
  `List.insertionSort` with a `≤`-like relation, which is stable with the same
  orientation.  Sorting a list that mixes naive and aware datetimes raises in
  Python (some naive/aware pair must be compared); this is modelled by an
  explicit mixed-awareness check.
* Floats appear only as `duration_minutes` inputs (`int(td.total_seconds()/60)`,
  which on microsecond-resolution timedeltas of at most a day equals the
  floored integer division by 60 000 000 microseconds, as the double rounding
  cannot cross an integer boundary at these magnitudes) and the weather
  temperature (carried opaquely; modelled as an exact integer).
-/

namespace SmartPlanner

/-- Task priority literal of `models/schemas.py`. -/
inductive Priority where
  | low
  | medium
  | high
  | urgent
deriving DecidableEq

/-- A `datetime.date`: calendar components. -/
structure PyDate where
  year : Nat
  month : Nat
  day : Nat
deriving DecidableEq

/-- Days before the 1st of month `m` in a non-leap year (1-based month). -/
def daysBeforeMonth (m : Nat) : Nat :=
  if m = 1 then 0 else if m = 2 then 31 else if m = 3 then 59
  else if m = 4 then 90 else if m = 5 then 120 else if m = 6 then 151
  else if m = 7 then 181 else if m = 8 then 212 else if m = 9 then 243
  else if m = 10 then 273 else if m = 11 then 304 else 334

/-- Gregorian leap-year test. -/
def isLeap (y : Nat) : Bool :=
  y % 4 == 0 && (y % 100 != 0 || y % 400 == 0)

/-- Proleptic Gregorian ordinal of a date (`date.toordinal`), the day count
used by `datetime` arithmetic and comparisons. -/
def PyDate.toOrd (d : PyDate) : Int :=
  365 * ((d.year : Int) - 1) + ((d.year : Int) - 1) / 4 - ((d.year : Int) - 1) / 100
    + ((d.year : Int) - 1) / 400 + (daysBeforeMonth d.month : Int)
    + (if isLeap d.year && decide (2 < d.month) then 1 else 0) + (d.day : Int)

def microsPerDay : Int := 86400000000

def microsPerMinute : Int := 60000000

/-- 09:00 as microseconds since midnight. -/
def nineAM : Int := 32400000000

/-- 17:00 as microseconds since midnight. -/
def fivePM : Int := 61200000000

/-- The minimum free-slot duration (15 minutes) in microseconds. -/
def minSlotMicros : Int := 900000000

/-- A `datetime.datetime`: date, wall-clock microseconds since midnight and an
optional UTC offset in microseconds (`none` for a naive datetime). -/
structure PyDT where
  date : PyDate
  tod : Int
  tz : Option Int
deriving DecidableEq

/-- Naive timestamp key of a datetime: microseconds since the proleptic epoch,
read off the wall-clock components. -/
def PyDT.key (d : PyDT) : Int :=
  d.date.toOrd * microsPerDay + d.tod

/-- Instant key: the UTC instant for aware datetimes, the naive key otherwise.
Python compares two naive or two aware datetimes exactly by this key. -/
def PyDT.instKey (d : PyDT) : Int :=
  d.key - (d.tz.getD 0)

def cmpErr : String := "TypeError: cannot compare naive and aware datetimes"

def subErr : String := "TypeError: cannot subtract naive and aware datetimes"

/-- Python `<` on datetimes: naive/aware mix raises `TypeError`. -/
def pyLt (a b : PyDT) : Except String Bool :=
  match a.tz, b.tz with
  | none, none => .ok (decide (a.instKey < b.instKey))
  | some _, some _ => .ok (decide (a.instKey < b.instKey))
  | _, _ => .error cmpErr

/-- Python `max(a, b)`: `b` if `a < b` else `a`. -/
def pyMax (a b : PyDT) : Except String PyDT :=
  (pyLt a b).map (fun c => if c then b else a)

/-- Python `min(a, b)`: `b` if `b < a` else `a`. -/
def pyMin (a b : PyDT) : Except String PyDT :=
  (pyLt b a).map (fun c => if c then b else a)

/-- Python datetime subtraction, as a timedelta in microseconds. -/
def pySub (a b : PyDT) : Except String Int :=
  match a.tz, b.tz with
  | none, none => .ok (a.instKey - b.instKey)
  | some _, some _ => .ok (a.instKey - b.instKey)
  | _, _ => .error subErr

/-- Python `==` on datetimes: mixed naive/aware compare unequal (no raise). -/
def pyDTEq (a b : PyDT) : Bool :=
  (a.tz.isSome == b.tz.isSome) && (a.instKey == b.instKey)

/-- `dt.astimezone(z)` for an aware `dt`: same instant, offset `z`.  Wall
components are represented un-normalised (`tod` out of range is permitted);
no observable of the modelled program reads them. -/
def PyDT.astimezone (d : PyDT) (z : Int) : PyDT :=
  ⟨d.date, d.tod - d.tz.getD 0 + z, some z⟩

/-- `dt.replace(tzinfo=z)`: attach an offset to the same wall clock. -/
def PyDT.replaceTz (d : PyDT) (z : Int) : PyDT :=
  ⟨d.date, d.tod, some z⟩

/-- Wall-clock time-of-day in microseconds (`datetime.time()`), normalised. -/
def PyDT.timeOfDay (d : PyDT) : Nat :=
  (d.tod % microsPerDay).toNat

/-- `models/schemas.py` `CalendarEvent`. -/
structure CalendarEvent where
  start_time : PyDT
  end_time : PyDT
  summary : String
  location : Option String
deriving DecidableEq

/-- Pydantic model equality of events (fieldwise `==`, datetimes per Python). -/
def pyEventEq (a b : CalendarEvent) : Bool :=
  pyDTEq a.start_time b.start_time && pyDTEq a.end_time b.end_time
    && (a.summary == b.summary) && (a.location == b.location)

/-- `models/schemas.py` `FreeTimeSlot`. -/
structure FreeTimeSlot where
  start_time : PyDT
  end_time : PyDT
  duration_minutes : Int
deriving DecidableEq

/-- `models/schemas.py` `CalendarConflict`. -/
structure CalendarConflict where
  conflicting_events : List CalendarEvent
  details : String
deriving DecidableEq

/-- `models/schemas.py` `CalendarSummaryOutput`. -/
structure CalendarSummaryOutput where
  summary_date : PyDate
  events : List CalendarEvent
  free_slots : List FreeTimeSlot
  conflicts : List CalendarConflict
deriving DecidableEq

def digitChar (n : Nat) : Char :=
  Char.ofNat (48 + n)

def fmt2L (n : Nat) : List Char :=
  [digitChar (n / 10), digitChar (n % 10)]

def fmt2 (n : Nat) : String :=
  String.mk (fmt2L n)

/-- `dt.strftime('%H:%M')`. -/
def strftimeHM (d : PyDT) : String :=
  fmt2 (d.timeOfDay / 3600000000) ++ ":" ++ fmt2 (d.timeOfDay / 60000000 % 60)

/-- The conflict description string built in `analyze_schedule`. -/
def conflictDetails (e1 e2 : CalendarEvent) : String :=
  "Overlap between '" ++ e1.summary ++ "' (" ++ strftimeHM e1.start_time ++ "-"
    ++ strftimeHM e1.end_time ++ ") and '" ++ e2.summary ++ "' ("
    ++ strftimeHM e2.start_time ++ "-" ++ strftimeHM e2.end_time ++ ")"

def mkConflict (e1 e2 : CalendarEvent) : CalendarConflict :=
  ⟨[e1, e2], conflictDetails e1 e2⟩

/-- Sort key order of `events.sort(key=lambda x: x.start_time)`. -/
def evLe (a b : CalendarEvent) : Prop :=
  a.start_time.instKey ≤ b.start_time.instKey

instance : DecidableRel evLe :=
  fun a b => inferInstanceAs (Decidable (a.start_time.instKey ≤ b.start_time.instKey))

instance : IsTotal CalendarEvent evLe :=
  ⟨fun _ _ => Int.le_total _ _⟩

instance : IsTrans CalendarEvent evLe :=
  ⟨fun _ _ _ => Int.le_trans⟩

/-- `events.sort(key=lambda x: x.start_time)`: a stable sort that raises
`TypeError` when the start times mix naive and aware datetimes. -/
def sortEvents (evs : List CalendarEvent) : Except String (List CalendarEvent) :=
  if (evs.any fun e => e.start_time.tz.isNone) && (evs.any fun e => e.start_time.tz.isSome)
  then .error cmpErr
  else .ok (List.insertionSort evLe evs)

/-- `tz_info` of `analyze_schedule`: the first (time-sorted) event's offset. -/
def tzInfoOf (sorted : List CalendarEvent) : Option Int :=
  match sorted with
  | [] => none
  | e :: _ => e.start_time.tz

/-- The per-event normalisation in the free-slot loop: with a reference
offset, aware datetimes are converted (`astimezone`) and naive ones tagged
(`replace`); with no reference offset the raw datetime is used. -/
def normDT (tzi : Option Int) (d : PyDT) : PyDT :=
  match tzi with
  | none => d
  | some z => if d.tz.isSome then d.astimezone z else d.replaceTz z

/-- One iteration of the free-slot loop of `analyze_schedule` (lines 89-113):
clamp the event to the working-hours window; if the clamped interval is
non-empty, emit the gap before it when at least the minimum duration and
advance the cursor monotonically. -/
def freeStepM (tzi : Option Int) (dayS dayE : PyDT) (ev : CalendarEvent)
    (cur : PyDT) (slots : List FreeTimeSlot) :
    Except String (PyDT × List FreeTimeSlot) := do
  let es := normDT tzi ev.start_time
  let ee := normDT tzi ev.end_time
  let esc ← pyMax es dayS
  let eec ← pyMin ee dayE
  let hasSpan ← pyLt esc eec
  if hasSpan then
    let after ← pyLt cur esc
    if after then
      let dur ← pySub esc cur
      if minSlotMicros ≤ dur then
        let cur2 ← pyMax cur eec
        .ok (cur2, slots ++ [⟨cur, esc, dur / microsPerMinute⟩])
      else
        let cur2 ← pyMax cur eec
        .ok (cur2, slots)
    else
      let cur2 ← pyMax cur eec
      .ok (cur2, slots)
  else
    .ok (cur, slots)

/-- The free-slot loop over the sorted event list. -/
def freeLoop (tzi : Option Int) (dayS dayE : PyDT) :
    List CalendarEvent → PyDT → List FreeTimeSlot →
    Except String (PyDT × List FreeTimeSlot)
  | [], cur, slots => .ok (cur, slots)
  | ev :: rest, cur, slots => do
    let st ← freeStepM tzi dayS dayE ev cur slots
    freeLoop tzi dayS dayE rest st.1 st.2

/-- The trailing free slot after the last event (lines 116-123). -/
def trailingSlot (dayE cur : PyDT) : Except String (List FreeTimeSlot) := do
  let more ← pyLt cur dayE
  if more then
    let dur ← pySub dayE cur
    if minSlotMicros ≤ dur then
      .ok [⟨cur, dayE, dur / microsPerMinute⟩]
    else
      .ok []
  else
    .ok []

/-- Python membership test `e in l` on event lists (`==` per element). -/
def evIn (e : CalendarEvent) (l : List CalendarEvent) : Bool :=
  l.any fun x => pyEventEq e x

/-- Dedup test: some already-recorded conflict contains both events. -/
def containsPair (acc : List CalendarConflict) (e f : CalendarEvent) : Bool :=
  acc.any fun c => evIn e c.conflicting_events && evIn f c.conflicting_events

/-- The overlap test `max(start1, start2) < min(end1, end2)` on raw event
times (may raise on a naive/aware mix). -/
def pyOverlap (e f : CalendarEvent) : Except String Bool := do
  let m1 ← pyMax e.start_time f.start_time
  let m2 ← pyMin e.end_time f.end_time
  pyLt m1 m2

/-- Inner loop of the conflict scan: pairs `(e, f)` for `f` after `e`. -/
def innerDetect (e : CalendarEvent) :
    List CalendarEvent → List CalendarConflict → Except String (List CalendarConflict)
  | [], acc => .ok acc
  | f :: fs, acc => do
    let ov ← pyOverlap e f
    if ov then
      if containsPair acc e f then
        innerDetect e fs acc
      else
        innerDetect e fs (acc ++ [mkConflict e f])
    else
      innerDetect e fs acc

/-- The `i < j` double loop of the conflict scan (lines 126-145). -/
def detectLoop :
    List CalendarEvent → List CalendarConflict → Except String (List CalendarConflict)
  | [], acc => .ok acc
  | e :: rest, acc => do
    let acc2 ← innerDetect e rest acc
    detectLoop rest acc2

/-- `CalendarAgent.analyze_schedule`: sort the events, derive the reference
offset from the first sorted event, compute free slots within the 09:00-17:00
window and the pairwise conflicts.  Python exceptions (naive/aware `TypeError`)
are modelled as `Except.error`. -/
def analyze_schedule (target_date : PyDate) (events : List CalendarEvent) :
    Except String CalendarSummaryOutput := do
  let sorted ← sortEvents events
  let tzi := tzInfoOf sorted
  let dayS : PyDT := ⟨target_date, nineAM, tzi⟩
  let dayE : PyDT := ⟨target_date, fivePM, tzi⟩
  let st ← freeLoop tzi dayS dayE sorted dayS []
  let trail ← trailingSlot dayE st.1
  let conflicts ← detectLoop sorted []
  .ok ⟨target_date, sorted, st.2 ++ trail, conflicts⟩

/-- The free slots produced for a date and event list (empty on a raise). -/
def freeSlotsOf (d : PyDate) (evs : List CalendarEvent) : List FreeTimeSlot :=
  match analyze_schedule d evs with
  | .ok s => s.free_slots
  | .error _ => []

/-- The conflicts produced for a date and event list (empty on a raise). -/
def conflictsOf (d : PyDate) (evs : List CalendarEvent) : List CalendarConflict :=
  match analyze_schedule d evs with
  | .ok s => s.conflicts
  | .error _ => []

/-- Whether an `Except` computation succeeded. -/
def exceptOk {ε α : Type} (x : Except ε α) : Bool :=
  match x with
  | .ok _ => true
  | .error _ => false

/-- `models/schemas.py` `EmailTask`. -/
structure EmailTask where
  description : String
  priority : Priority
  due_date : Option PyDate
  source_email_id : Option String
deriving DecidableEq

/-- `models/schemas.py` `PrioritizedTaskListOutput`. -/
structure PrioritizedTaskListOutput where
  tasks : List EmailTask
deriving DecidableEq

/-- `models/schemas.py` `WeatherInfo` (temperature float carried exactly). -/
structure WeatherInfo where
  time : Option Nat
  description : String
  temperature_celsius : Option Int
  location : Option String
deriving DecidableEq

/-- Traffic condition literal. -/
inductive TrafficCond where
  | light
  | moderate
  | heavy
  | severe
deriving DecidableEq

/-- `models/schemas.py` `TrafficInfo`. -/
structure TrafficInfo where
  route_description : Option String
  delay_minutes : Option Int
  condition : TrafficCond
  recommendation : Option String
deriving DecidableEq

/-- Recommendation type literal. -/
inductive RecType where
  | weather
  | traffic
  | general
deriving DecidableEq

/-- The `Union[WeatherInfo, TrafficInfo, str]` payload of a recommendation. -/
inductive RecDetails where
  | weather (w : WeatherInfo)
  | traffic (t : TrafficInfo)
  | text (s : String)
deriving DecidableEq

/-- `models/schemas.py` `ContextRecommendation`. -/
structure ContextRecommendation where
  type : RecType
  details : RecDetails
  impact_time : Option PyDT
deriving DecidableEq

/-- `models/schemas.py` `ContextOutput`. -/
structure ContextOutput where
  recommendations : List ContextRecommendation
deriving DecidableEq

/-- Plan item type literal. -/
inductive ItemType where
  | event
  | task
  | recommendation
deriving DecidableEq

/-- The `Union[CalendarEvent, EmailTask, ContextRecommendation, str]` payload
of a plan item. -/
inductive PlanDetails where
  | ev (e : CalendarEvent)
  | task (t : EmailTask)
  | rcmd (r : ContextRecommendation)
  | text (s : String)
deriving DecidableEq

/-- `models/schemas.py` `PlanItem`; `time` is a `datetime.time` modelled as
microseconds since midnight. -/
structure PlanItem where
  time : Nat
  item_type : ItemType
  details : PlanDetails
  priority : Option Priority
deriving DecidableEq

/-- `models/schemas.py` `ConsolidatedDailyPlanOutput`. -/
structure ConsolidatedDailyPlanOutput where
  date : PyDate
  plan : List PlanItem
  summary : Option String
deriving DecidableEq

/-- Sort order of plan items (`key=lambda item: item.time`). -/
def itemLe (a b : PlanItem) : Prop :=
  a.time ≤ b.time

instance : DecidableRel itemLe :=
  fun a b => inferInstanceAs (Decidable (a.time ≤ b.time))

instance : IsTotal PlanItem itemLe :=
  ⟨fun _ _ => Nat.le_total _ _⟩

instance : IsTrans PlanItem itemLe :=
  ⟨fun _ _ _ => Nat.le_trans⟩

/-- Constructing a `ConsolidatedDailyPlanOutput` runs the `sort_plan_by_time`
validator (schemas.py lines 106-109): the plan list is stably sorted by
time-of-day. -/
def mkConsolidated (d : PyDate) (items : List PlanItem) (s : Option String) :
    ConsolidatedDailyPlanOutput :=
  ⟨d, List.insertionSort itemLe items, s⟩

/-- The `priority_order` dict of `combine_agent_outputs`; every `EmailTask`
priority is one of the four literals, so the `.get` default 99 never applies. -/
def priority_order (p : Priority) : Nat :=
  match p with
  | .urgent => 0
  | .high => 1
  | .medium => 2
  | .low => 3

/-- Sort order of tasks (`key=lambda t: priority_order.get(t.priority, 99)`). -/
def taskLe (a b : EmailTask) : Prop :=
  priority_order a.priority ≤ priority_order b.priority

instance : DecidableRel taskLe :=
  fun a b => inferInstanceAs (Decidable (priority_order a.priority ≤ priority_order b.priority))

instance : IsTotal EmailTask taskLe :=
  ⟨fun _ _ => Nat.le_total _ _⟩

instance : IsTrans EmailTask taskLe :=
  ⟨fun _ _ _ => Nat.le_trans⟩

/-- The placeholder slot rotation `[time(9,0), time(11,0), time(14,0),
time(16,0)]` in microseconds since midnight. -/
def task_times : List Nat :=
  [32400000000, 39600000000, 50400000000, 57600000000]

/-- The time-of-day assigned to the task at index `idx` of the priority-sorted
list: rotation slot `idx % 4` plus `idx` minutes, wrapped at midnight by
`.time()`. -/
def assignedTaskTime (idx : Nat) : Nat :=
  (task_times.getD (idx % task_times.length) 0 + idx * 60000000) % 86400000000

/-- Calendar events become plan items at their start time-of-day. -/
def eventPlanItems (cs : CalendarSummaryOutput) : List PlanItem :=
  cs.events.map fun e => ⟨e.start_time.timeOfDay, .event, .ev e, none⟩

/-- `sorted(task_list.tasks, key=...)`: stable priority sort. -/
def sortTasks (ts : List EmailTask) : List EmailTask :=
  List.insertionSort taskLe ts

/-- Tasks become plan items at rotated placeholder times. -/
def taskPlanItems (tl : PrioritizedTaskListOutput) : List PlanItem :=
  (sortTasks tl.tasks).mapIdx fun i t =>
    ⟨assignedTaskTime i, .task, .task t, some t.priority⟩

/-- 07:00, the default recommendation time, in microseconds since midnight. -/
def sevenAM : Nat := 25200000000

/-- Recommendations become plan items at their impact time-of-day, default
07:00. -/
def recPlanItems (ci : ContextOutput) : List PlanItem :=
  ci.recommendations.map fun r =>
    ⟨(match r.impact_time with
       | some t => t.timeOfDay
       | none => sevenAM), .recommendation, .rcmd r, none⟩

def fmt4 (n : Nat) : String :=
  fmt2 (n / 100) ++ fmt2 (n % 100)

/-- `target_date.strftime('%Y-%m-%d')` (zero-padded, year at most 9999). -/
def fmtDate (d : PyDate) : String :=
  fmt4 d.year ++ "-" ++ fmt2 d.month ++ "-" ++ fmt2 d.day

/-- The summary f-string of `combine_agent_outputs`. -/
def planSummary (d : PyDate) (nE nT nR : Nat) : String :=
  "Plan for " ++ fmtDate d ++ ". Events: " ++ toString nE ++ ". Tasks: "
    ++ toString nT ++ ". Recommendations: " ++ toString nR ++ "."

/-- `main.combine_agent_outputs`: append event, task and recommendation plan
items, sort chronologically, and build the final output (whose validator sorts
again). -/
def combine_agent_outputs (target_date : PyDate)
    (calendar_summary : Option CalendarSummaryOutput)
    (task_list : Option PrioritizedTaskListOutput)
    (context_info : Option ContextOutput) : ConsolidatedDailyPlanOutput :=
  let items :=
    (match calendar_summary with
      | some cs => eventPlanItems cs
      | none => [])
    ++ (match task_list with
         | some tl => taskPlanItems tl
         | none => [])
    ++ (match context_info with
         | some ci => recPlanItems ci
         | none => [])
  mkConsolidated target_date (List.insertionSort itemLe items)
    (some (planSummary target_date
      (match calendar_summary with
        | some cs => cs.events.length
        | none => 0)
      (match task_list with
        | some tl => tl.tasks.length
        | none => 0)
      (match context_info with
        | some ci => ci.recommendations.length
        | none => 0)))

/-!  Awareness classes and pure (exception-free) shadows of the engine. -/

/-- Every event datetime in the list has awareness kind `k` (`true` = aware). -/
def HomogK (k : Bool) (evs : List CalendarEvent) : Prop :=
  ∀ e ∈ evs, e.start_time.tz.isSome = k ∧ e.end_time.tz.isSome = k

instance (k : Bool) (evs : List CalendarEvent) : Decidable (HomogK k evs) :=
  inferInstanceAs (Decidable (∀ e ∈ evs, _ ∧ _))

/-- The event list is uniformly naive or uniformly timezone-aware. -/
def Homog (evs : List CalendarEvent) : Prop :=
  HomogK false evs ∨ HomogK true evs

instance (evs : List CalendarEvent) : Decidable (Homog evs) :=
  inferInstanceAs (Decidable (_ ∨ _))

/-- Compatibility of one event with the reference offset of the loop: with no
reference offset the event must be naive (otherwise the loop's comparisons
with the naive window bounds raise); with a reference offset the event must be
aware (so that `astimezone` preserves the instant). -/
def EvCompat (tzi : Option Int) (e : CalendarEvent) : Prop :=
  match tzi with
  | none => e.start_time.tz = none ∧ e.end_time.tz = none
  | some _ => e.start_time.tz.isSome = true ∧ e.end_time.tz.isSome = true

/-- Instant position of an event's start. -/
def evStartPos (e : CalendarEvent) : Int :=
  e.start_time.instKey

/-- Instant position of an event's end. -/
def evEndPos (e : CalendarEvent) : Int :=
  e.end_time.instKey

/-- Both instant positions of an event. -/
def evPos (e : CalendarEvent) : Int × Int :=
  (e.start_time.instKey, e.end_time.instKey)

/-- Instant positions and duration of a free slot. -/
def slotTriple (sl : FreeTimeSlot) : Int × Int × Int :=
  (sl.start_time.instKey, sl.end_time.instKey, sl.duration_minutes)

/-- Pure shadow of one free-slot iteration on instant positions; the state is
the cursor position and the emitted slot triples. -/
def coreStep (A B : Int) (st : Int × List (Int × Int × Int)) (p : Int × Int) :
    Int × List (Int × Int × Int) :=
  let s2 := max p.1 A
  let e2 := min p.2 B
  if s2 < e2 then
    (max st.1 e2,
      if st.1 < s2 ∧ minSlotMicros ≤ s2 - st.1 then
        st.2 ++ [(st.1, s2, (s2 - st.1) / microsPerMinute)]
      else st.2)
  else st

/-- Pure shadow of the whole free-slot computation including the trailing
slot, on instant positions. -/
def coreFree (A B : Int) (ks : List (Int × Int)) : List (Int × Int × Int) :=
  let st := List.foldl (coreStep A B) (A, []) ks
  st.2 ++ (if st.1 < B ∧ minSlotMicros ≤ B - st.1 then
    [(st.1, B, (B - st.1) / microsPerMinute)] else [])

/-- Pure overlap test on instant positions (the raw-time overlap check of the
conflict scan, valid on awareness-uniform lists). -/
def overlapB (e f : CalendarEvent) : Bool :=
  decide (max (evStartPos e) (evStartPos f) < min (evEndPos e) (evEndPos f))

/-- Pure shadow of the inner conflict loop. -/
def innerDetectP (e : CalendarEvent) :
    List CalendarEvent → List CalendarConflict → List CalendarConflict
  | [], acc => acc
  | f :: fs, acc =>
    if overlapB e f then
      if containsPair acc e f then
        innerDetectP e fs acc
      else
        innerDetectP e fs (acc ++ [mkConflict e f])
    else
      innerDetectP e fs acc

/-- Pure shadow of the `i < j` conflict double loop. -/
def detectLoopP : List CalendarEvent → List CalendarConflict → List CalendarConflict
  | [], acc => acc
  | e :: rest, acc => detectLoopP rest (innerDetectP e rest acc)

/-- The instant position of the working-hours window start (09:00 of the
target date in the reference offset). -/
def windowA (d : PyDate) (tzi : Option Int) : Int :=
  (PyDT.mk d nineAM tzi).instKey

/-- The instant position of the working-hours window end (17:00). -/
def windowB (d : PyDate) (tzi : Option Int) : Int :=
  (PyDT.mk d fivePM tzi).instKey

/-- The reference offset chosen by `analyze_schedule` for an event list. -/
def tzInfoOfList (evs : List CalendarEvent) : Option Int :=
  tzInfoOf (List.insertionSort evLe evs)

/-- The events returned for a date and event list (empty on a raise). -/
def eventsOf (d : PyDate) (evs : List CalendarEvent) : List CalendarEvent :=
  match analyze_schedule d evs with
  | .ok s => s.events
  | .error _ => []

/-- All ordered pairs `(i, j)` with `i < j` of a list, in the discovery order
of the conflict double loop. -/
def ijPairs {α : Type} : List α → List (α × α)
  | [] => []
  | x :: xs => xs.map (fun y => (x, y)) ++ ijPairs xs

/-- Two conflict records report the same unordered pair of events, by the
value equality used for deduplication. -/
def sameValuePair (c1 c2 : CalendarConflict) : Prop :=
  ∃ a1 b1 a2 b2, c1.conflicting_events = [a1, b1] ∧ c2.conflicting_events = [a2, b2]
    ∧ ((pyEventEq a1 a2 = true ∧ pyEventEq b1 b2 = true)
      ∨ (pyEventEq a1 b2 = true ∧ pyEventEq b1 a2 = true))

/-- Strict start-time order on events. -/
def evLt (a b : CalendarEvent) : Prop :=
  a.start_time.instKey < b.start_time.instKey

instance : IsAntisymm CalendarEvent evLt :=
  ⟨fun _ _ h1 h2 => absurd h2 (lt_asymm h1)⟩

/-- A clamped event interval (on instant positions) covers the instant `u`. -/
def covers (A B : Int) (p : Int × Int) (u : Int) : Prop :=
  max p.1 A ≤ u ∧ u < min p.2 B

instance (A B : Int) (p : Int × Int) (u : Int) : Decidable (covers A B p u) :=
  inferInstanceAs (Decidable (_ ∧ _))

/-- Some slot triple covers the instant `u`. -/
def inTriples (l : List (Int × Int × Int)) (u : Int) : Prop :=
  ∃ t ∈ l, t.1 ≤ u ∧ u < t.2.1

instance (l : List (Int × Int × Int)) (u : Int) : Decidable (inTriples l u) :=
  inferInstanceAs (Decidable (∃ t ∈ l, _ ∧ _))

/-- Well-formed slot triples below a cursor: inside the window bottom, at
least the minimum duration long, below the cursor, with the recorded duration
the floored minute count. -/
def triplesOk (A c : Int) (l : List (Int × Int × Int)) : Prop :=
  ∀ t ∈ l, A ≤ t.1 ∧ t.1 + minSlotMicros ≤ t.2.1 ∧ t.2.1 ≤ c
    ∧ t.2.2 = (t.2.1 - t.1) / microsPerMinute

/-!  JSON serialization (`model_dump_json` / re-validation).  The pydantic
serialization layer is not part of this repository's sources; following the
spec's JSON form (§6) it is modelled as: ISO dates `YYYY-MM-DD`, times
`HH:MM:SS` with the microsecond fraction exactly when non-zero, datetimes
with optional `Z` / `±HH:MM` offset suffix, objects listing each model's
fields in declaration order, and union-typed fields parsed left to right.
Numbers carry the exact integral values this program produces. -/

/-- A JSON value. -/
inductive Json where
  | null
  | str (s : String)
  | num (n : Int)
  | arr (l : List Json)
  | obj (l : List (String × Json))

def fmt4L (n : Nat) : List Char :=
  [digitChar (n / 1000), digitChar (n / 100 % 10), digitChar (n / 10 % 10),
   digitChar (n % 10)]

def fmt6L (n : Nat) : List Char :=
  [digitChar (n / 100000), digitChar (n / 10000 % 10), digitChar (n / 1000 % 10),
   digitChar (n / 100 % 10), digitChar (n / 10 % 10), digitChar (n % 10)]

/-- `date.isoformat()`. -/
def dateL (dd : PyDate) : List Char :=
  fmt4L dd.year ++ '-' :: fmt2L dd.month ++ '-' :: fmt2L dd.day

/-- `time.isoformat()`: the fraction appears exactly when non-zero. -/
def timeL (t : Nat) : List Char :=
  fmt2L (t / 3600000000) ++ ':' :: fmt2L (t / 60000000 % 60)
    ++ ':' :: fmt2L (t / 1000000 % 60)
    ++ (if t % 1000000 = 0 then [] else '.' :: fmt6L (t % 1000000))

/-- The serialized UTC offset: nothing for naive, `Z` for UTC, `±HH:MM`
otherwise. -/
def offL : Option Int → List Char
  | none => []
  | some z =>
    if z = 0 then ['Z']
    else (if z < 0 then '-' else '+')
      :: fmt2L (z.natAbs / 3600000000) ++ ':' :: fmt2L (z.natAbs / 60000000 % 60)

/-- `datetime.isoformat()`. -/
def dtL (dt : PyDT) : List Char :=
  dateL dt.date ++ 'T' :: timeL dt.tod.toNat ++ offL dt.tz

/-- A decimal digit. -/
def digit? (c : Char) : Option Nat :=
  if 48 ≤ c.toNat ∧ c.toNat ≤ 57 then some (c.toNat - 48) else none

def parse2 : List Char → Option (Nat × List Char)
  | c1 :: c2 :: rest =>
    match digit? c1, digit? c2 with
    | some a, some b => some (a * 10 + b, rest)
    | _, _ => none
  | _ => none

def parse4 : List Char → Option (Nat × List Char)
  | c1 :: c2 :: c3 :: c4 :: rest =>
    match digit? c1, digit? c2, digit? c3, digit? c4 with
    | some a, some b, some c, some d =>
      some (((a * 10 + b) * 10 + c) * 10 + d, rest)
    | _, _, _, _ => none
  | _ => none

def parse6 : List Char → Option (Nat × List Char)
  | c1 :: c2 :: c3 :: c4 :: c5 :: c6 :: rest =>
    match digit? c1, digit? c2, digit? c3, digit? c4, digit? c5, digit? c6 with
    | some a, some b, some c, some d, some e, some f =>
      some (((((a * 10 + b) * 10 + c) * 10 + d) * 10 + e) * 10 + f, rest)
    | _, _, _, _, _, _ => none
  | _ => none

/-- Consume one expected character. -/
def expect (c : Char) : List Char → Option (List Char)
  | x :: rest => if x = c then some rest else none
  | [] => none

/-- The optional fractional part after `HH:MM:SS`. -/
def timeTail (sec : Nat) : List Char → Option (Nat × List Char)
  | [] => some (sec * 1000000, [])
  | c :: l =>
    if c = '.' then
      (parse6 l).bind fun p => some (sec * 1000000 + p.1, p.2)
    else some (sec * 1000000, c :: l)

/-- Parse `HH:MM:SS[.ffffff]` into microseconds since midnight. -/
def parseTimePart (l : List Char) : Option (Nat × List Char) :=
  (parse2 l).bind fun p1 =>
  (expect ':' p1.2).bind fun l2 =>
  (parse2 l2).bind fun p2 =>
  (expect ':' p2.2).bind fun l4 =>
  (parse2 l4).bind fun p3 =>
  if p1.1 < 24 ∧ p2.1 < 60 ∧ p3.1 < 60 then
    timeTail ((p1.1 * 60 + p2.1) * 60 + p3.1) p3.2
  else none

/-- Parse `YYYY-MM-DD`. -/
def parseDatePart (l : List Char) : Option (PyDate × List Char) :=
  (parse4 l).bind fun p1 =>
  (expect '-' p1.2).bind fun l2 =>
  (parse2 l2).bind fun p2 =>
  (expect '-' p2.2).bind fun l4 =>
  (parse2 l4).bind fun p3 =>
  some (⟨p1.1, p2.1, p3.1⟩, p3.2)

/-- Parse the trailing UTC offset. -/
def offTail : List Char → Option (Option Int)
  | [] => some none
  | c :: l =>
    if c = 'Z' then
      if l = [] then some (some 0) else none
    else if c = '+' ∨ c = '-' then
      (parse2 l).bind fun p1 =>
      (expect ':' p1.2).bind fun p2l =>
      (parse2 p2l).bind fun p2 =>
      if p2.2 = [] then
        some (some ((if c = '-' then -1 else 1)
          * ((p1.1 * 60 + p2.1 : Int)) * 60000000))
      else none
    else none

/-- `date.fromisoformat` on a whole string. -/
def parseDate (s : String) : Option PyDate :=
  (parseDatePart s.data).bind fun p =>
  if p.2 = [] then some p.1 else none

/-- `time.fromisoformat` on a whole string. -/
def parseTime (s : String) : Option Nat :=
  (parseTimePart s.data).bind fun p =>
  if p.2 = [] then some p.1 else none

/-- `datetime.fromisoformat` on a whole string. -/
def parseDT (s : String) : Option PyDT :=
  (parseDatePart s.data).bind fun p1 =>
  (expect 'T' p1.2).bind fun l2 =>
  (parseTimePart l2).bind fun p2 =>
  (offTail p2.2).bind fun tz =>
  some ⟨p1.1, (p2.1 : Int), tz⟩

def priorityStr : Priority → String
  | .low => "low"
  | .medium => "medium"
  | .high => "high"
  | .urgent => "urgent"

def strPriority (s : String) : Option Priority :=
  if s = "low" then some .low
  else if s = "medium" then some .medium
  else if s = "high" then some .high
  else if s = "urgent" then some .urgent
  else none

def itemTypeStr : ItemType → String
  | .event => "event"
  | .task => "task"
  | .recommendation => "recommendation"

def strItemType (s : String) : Option ItemType :=
  if s = "event" then some .event
  else if s = "task" then some .task
  else if s = "recommendation" then some .recommendation
  else none

def recTypeStr : RecType → String
  | .weather => "weather"
  | .traffic => "traffic"
  | .general => "general"

def strRecType (s : String) : Option RecType :=
  if s = "weather" then some .weather
  else if s = "traffic" then some .traffic
  else if s = "general" then some .general
  else none

def trafficCondStr : TrafficCond → String
  | .light => "light"
  | .moderate => "moderate"
  | .heavy => "heavy"
  | .severe => "severe"

def strTrafficCond (s : String) : Option TrafficCond :=
  if s = "light" then some .light
  else if s = "moderate" then some .moderate
  else if s = "heavy" then some .heavy
  else if s = "severe" then some .severe
  else none

def jOfOptStr : Option String → Json
  | none => .null
  | some s => .str s

def jOfDate (dd : PyDate) : Json := .str (String.mk (dateL dd))

def jOfTime (t : Nat) : Json := .str (String.mk (timeL t))

def jOfDT (dt : PyDT) : Json := .str (String.mk (dtL dt))

def jOfOptDate : Option PyDate → Json
  | none => .null
  | some dd => jOfDate dd

def jOfOptTime : Option Nat → Json
  | none => .null
  | some t => jOfTime t

def jOfOptNum : Option Int → Json
  | none => .null
  | some n => .num n

def jOfOptDT : Option PyDT → Json
  | none => .null
  | some dt => jOfDT dt

def jOfOptPriority : Option Priority → Json
  | none => .null
  | some p => .str (priorityStr p)

def jOfCalendarEvent (e : CalendarEvent) : Json :=
  .obj [("start_time", jOfDT e.start_time), ("end_time", jOfDT e.end_time),
        ("summary", .str e.summary), ("location", jOfOptStr e.location)]

def jOfEmailTask (t : EmailTask) : Json :=
  .obj [("description", .str t.description),
        ("priority", .str (priorityStr t.priority)),
        ("due_date", jOfOptDate t.due_date),
        ("source_email_id", jOfOptStr t.source_email_id)]

def jOfWeather (w : WeatherInfo) : Json :=
  .obj [("time", jOfOptTime w.time),
        ("description", .str w.description),
        ("temperature_celsius", jOfOptNum w.temperature_celsius),
        ("location", jOfOptStr w.location)]

def jOfTraffic (t : TrafficInfo) : Json :=
  .obj [("route_description", jOfOptStr t.route_description),
        ("delay_minutes", jOfOptNum t.delay_minutes),
        ("condition", .str (trafficCondStr t.condition)),
        ("recommendation", jOfOptStr t.recommendation)]

def jOfRecDetails : RecDetails → Json
  | .weather w => jOfWeather w
  | .traffic t => jOfTraffic t
  | .text s => .str s

def jOfRec (r : ContextRecommendation) : Json :=
  .obj [("type", .str (recTypeStr r.type)), ("details", jOfRecDetails r.details),
        ("impact_time", jOfOptDT r.impact_time)]

def jOfPlanDetails : PlanDetails → Json
  | .ev e => jOfCalendarEvent e
  | .task t => jOfEmailTask t
  | .rcmd r => jOfRec r
  | .text s => .str s

def jOfPlanItem (it : PlanItem) : Json :=
  .obj [("time", jOfTime it.time),
        ("item_type", .str (itemTypeStr it.item_type)),
        ("details", jOfPlanDetails it.details),
        ("priority", jOfOptPriority it.priority)]

def jOfConsolidated (c : ConsolidatedDailyPlanOutput) : Json :=
  .obj [("date", jOfDate c.date), ("plan", .arr (c.plan.map jOfPlanItem)),
        ("summary", jOfOptStr c.summary)]

def jToOptStr : Json → Option (Option String)
  | .null => some none
  | .str s => some (some s)
  | _ => none

def jToOptDate : Json → Option (Option PyDate)
  | .null => some none
  | .str s => (parseDate s).bind fun dd => some (some dd)
  | _ => none

def jToOptTime : Json → Option (Option Nat)
  | .null => some none
  | .str s => (parseTime s).bind fun t => some (some t)
  | _ => none

def jToOptNum : Json → Option (Option Int)
  | .null => some none
  | .num n => some (some n)
  | _ => none

def jToOptDT : Json → Option (Option PyDT)
  | .null => some none
  | .str s => (parseDT s).bind fun dt => some (some dt)
  | _ => none

def jToCalendarEvent : Json → Option CalendarEvent
  | .obj [(k1, j1), (k2, j2), (k3, j3), (k4, j4)] =>
    if k1 = "start_time" ∧ k2 = "end_time" ∧ k3 = "summary" ∧ k4 = "location" then
      match j1, j2, j3 with
      | .str s1, .str s2, .str su =>
        (parseDT s1).bind fun st =>
        (parseDT s2).bind fun en =>
        (jToOptStr j4).bind fun lo =>
        some ⟨st, en, su, lo⟩
      | _, _, _ => none
    else none
  | _ => none

def jToEmailTask : Json → Option EmailTask
  | .obj [(k1, j1), (k2, j2), (k3, j3), (k4, j4)] =>
    if k1 = "description" ∧ k2 = "priority" ∧ k3 = "due_date"
        ∧ k4 = "source_email_id" then
      match j1, j2 with
      | .str de, .str pr =>
        (strPriority pr).bind fun p =>
        (jToOptDate j3).bind fun dd =>
        (jToOptStr j4).bind fun src =>
        some ⟨de, p, dd, src⟩
      | _, _ => none
    else none
  | _ => none

def jToWeather : Json → Option WeatherInfo
  | .obj [(k1, j1), (k2, j2), (k3, j3), (k4, j4)] =>
    if k1 = "time" ∧ k2 = "description" ∧ k3 = "temperature_celsius"
        ∧ k4 = "location" then
      match j2 with
      | .str de =>
        (jToOptTime j1).bind fun t =>
        (jToOptNum j3).bind fun x =>
        (jToOptStr j4).bind fun lo =>
        some ⟨t, de, x, lo⟩
      | _ => none
    else none
  | _ => none

def jToTraffic : Json → Option TrafficInfo
  | .obj [(k1, j1), (k2, j2), (k3, j3), (k4, j4)] =>
    if k1 = "route_description" ∧ k2 = "delay_minutes" ∧ k3 = "condition"
        ∧ k4 = "recommendation" then
      match j3 with
      | .str co =>
        (strTrafficCond co).bind fun cd =>
        (jToOptStr j1).bind fun ro =>
        (jToOptNum j2).bind fun de =>
        (jToOptStr j4).bind fun re =>
        some ⟨ro, de, cd, re⟩
      | _ => none
    else none
  | _ => none

/-- `Union[WeatherInfo, TrafficInfo, str]`, tried left to right. -/
def jToRecDetails (j : Json) : Option RecDetails :=
  match jToWeather j with
  | some w => some (.weather w)
  | none =>
    match jToTraffic j with
    | some t => some (.traffic t)
    | none =>
      match j with
      | .str s => some (.text s)
      | _ => none

def jToRec : Json → Option ContextRecommendation
  | .obj [(k1, j1), (k2, j2), (k3, j3)] =>
    if k1 = "type" ∧ k2 = "details" ∧ k3 = "impact_time" then
      match j1 with
      | .str ty =>
        (strRecType ty).bind fun rt =>
        (jToRecDetails j2).bind fun de =>
        (jToOptDT j3).bind fun it =>
        some ⟨rt, de, it⟩
      | _ => none
    else none
  | _ => none

/-- `Union[CalendarEvent, EmailTask, ContextRecommendation, str]`, tried left
to right. -/
def jToPlanDetails (j : Json) : Option PlanDetails :=
  match jToCalendarEvent j with
  | some e => some (.ev e)
  | none =>
    match jToEmailTask j with
    | some t => some (.task t)
    | none =>
      match jToRec j with
      | some r => some (.rcmd r)
      | none =>
        match j with
        | .str s => some (.text s)
        | _ => none

def jToPlanItem : Json → Option PlanItem
  | .obj [(k1, j1), (k2, j2), (k3, j3), (k4, j4)] =>
    if k1 = "time" ∧ k2 = "item_type" ∧ k3 = "details" ∧ k4 = "priority" then
      match j1, j2 with
      | .str ts, .str its =>
        (parseTime ts).bind fun t =>
        (strItemType its).bind fun ity =>
        (jToPlanDetails j3).bind fun de =>
        (match j4 with
          | Json.null => some none
          | Json.str ps => (strPriority ps).bind fun p => some (some p)
          | _ => none).bind fun pr =>
        some ⟨t, ity, de, pr⟩
      | _, _ => none
    else none
  | _ => none

def parseItems : List Json → Option (List PlanItem)
  | [] => some []
  | j :: js =>
    (jToPlanItem j).bind fun it =>
    (parseItems js).bind fun its =>
    some (it :: its)

/-- `model_validate_json` on the plan: parse the fields and re-run the
`sort_plan_by_time` validator. -/
def jToConsolidated : Json → Option ConsolidatedDailyPlanOutput
  | .obj [(k1, j1), (k2, j2), (k3, j3)] =>
    if k1 = "date" ∧ k2 = "plan" ∧ k3 = "summary" then
      match j1, j2 with
      | .str ds, .arr jitems =>
        (parseDate ds).bind fun dd =>
        (parseItems jitems).bind fun items =>
        (jToOptStr j3).bind fun s =>
        some (mkConsolidated dd items s)
      | _, _ => none
    else none
  | _ => none

/-- Serializable date: the formatted components fit their digit counts (true
of every Python `date`). -/
def dateWF (dd : PyDate) : Bool :=
  decide (dd.year < 10000) && decide (dd.month < 100) && decide (dd.day < 100)

/-- Serializable time of day. -/
def timeWF (t : Nat) : Bool :=
  decide (t < 86400000000)

/-- Serializable UTC offset: a whole number of minutes below one day (true of
every Python fixed-offset timezone used here). -/
def tzWF : Option Int → Bool
  | none => true
  | some z => decide (z % 60000000 = 0) && decide (z.natAbs < 86400000000)

/-- Serializable datetime: normalised wall clock, well-formed components. -/
def dtWF (dt : PyDT) : Bool :=
  dateWF dt.date && decide (0 ≤ dt.tod) && decide (dt.tod < 86400000000)
    && tzWF dt.tz

def optB {α : Type} (f : α → Bool) : Option α → Bool
  | none => true
  | some x => f x

def eventWF (e : CalendarEvent) : Bool :=
  dtWF e.start_time && dtWF e.end_time

def taskWF (t : EmailTask) : Bool :=
  optB dateWF t.due_date

def weatherWF (w : WeatherInfo) : Bool :=
  optB timeWF w.time

def recDetailsWF : RecDetails → Bool
  | .weather w => weatherWF w
  | .traffic _ => true
  | .text _ => true

def recWF (r : ContextRecommendation) : Bool :=
  recDetailsWF r.details && optB dtWF r.impact_time

def planDetailsWF : PlanDetails → Bool
  | .ev e => eventWF e
  | .task t => taskWF t
  | .rcmd r => recWF r
  | .text _ => true

def itemWF (it : PlanItem) : Bool :=
  timeWF it.time && planDetailsWF it.details

/-- Serializable daily plan: every formatted numeric component fits its
serialized form (true of every plan built from Python values). -/
def planWF (c : ConsolidatedDailyPlanOutput) : Bool :=
  dateWF c.date && c.plan.all itemWF

/-!  Generic lemmas about stable insertion sort. -/

/-- Filtering by a predicate whose satisfiers are mutually `r`-related
commutes with `orderedInsert`: the inserted element, if kept, lands in front
of the other kept elements. -/
theorem filter_orderedInsert {α : Type} (r : α → α → Prop) [DecidableRel r]
    (p : α → Bool) (hp : ∀ x y, p x = true → p y = true → r x y) (x : α) :
    ∀ l : List α,
      (List.orderedInsert r x l).filter p
        = if p x then x :: l.filter p else l.filter p
  | [] => by
    simp [List.filter_cons]
  | b :: bs => by
    by_cases hr : r x b
    · simp only [List.orderedInsert, if_pos hr]
      by_cases hx : p x <;> simp [List.filter_cons, hx]
    · simp only [List.orderedInsert, if_neg hr]
      by_cases hx : p x
      · by_cases hb : p b
        · exact absurd (hp x b hx hb) hr
        · simp [List.filter_cons, hb, filter_orderedInsert r p hp x bs, hx]
      · simp [List.filter_cons, filter_orderedInsert r p hp x bs, hx]

/-- Stability of insertion sort: filtering by a predicate whose satisfiers
are mutually `r`-related (e.g. items of one fixed sort key) is unchanged by
sorting. -/
theorem filter_insertionSort {α : Type} (r : α → α → Prop) [DecidableRel r]
    (p : α → Bool) (hp : ∀ x y, p x = true → p y = true → r x y) :
    ∀ l : List α, (List.insertionSort r l).filter p = l.filter p
  | [] => rfl
  | x :: xs => by
    rw [List.insertionSort, filter_orderedInsert r p hp, filter_insertionSort r p hp xs,
      List.filter_cons]

/-- `mapIdx` with an index-only function is a map over `range`. -/
theorem mapIdx_const_idx {α β : Type} :
    ∀ (l : List α) (g : Nat → β), (l.mapIdx fun i _ => g i) = (List.range l.length).map g
  | [], _ => rfl
  | x :: xs, g => by
    rw [List.mapIdx_cons, List.length_cons, List.range_succ_eq_map, List.map_cons,
      List.map_map]
    exact congrArg (g 0 :: ·) (mapIdx_const_idx xs fun i => g (i + 1))

/-- `mapIdx` with an index-independent function is a plain map. -/
theorem mapIdx_const_val {α β : Type} (h : α → β) :
    ∀ (l : List α) (f : Nat → α → β), (∀ i a, f i a = h a) → l.mapIdx f = l.map h
  | [], _, _ => rfl
  | x :: xs, f, hf => by
    rw [List.mapIdx_cons, hf 0 x, List.map_cons,
      mapIdx_const_val h xs (fun i => f (i + 1)) (fun i a => hf (i + 1) a)]

/-- Mapping after `mapIdx` composes pointwise. -/
theorem map_mapIdx {α β γ : Type} (g : β → γ) :
    ∀ (l : List α) (f : Nat → α → β),
      (l.mapIdx f).map g = l.mapIdx fun i a => g (f i a)
  | [], _ => rfl
  | x :: xs, f => by
    rw [List.mapIdx_cons, List.map_cons, List.mapIdx_cons,
      map_mapIdx g xs fun i => f (i + 1)]

/-!  Success and value lemmas for the modelled Python datetime operations. -/

theorem exceptBind_ok {ε α β : Type} (a : α) (f : α → Except ε β) :
    (Except.ok a >>= f) = f a := rfl

theorem exceptMap_ok {ε α β : Type} (a : α) (f : α → β) :
    (Except.ok a : Except ε α).map f = .ok (f a) := rfl

theorem pyLt_ok (a b : PyDT) (h : a.tz.isSome = b.tz.isSome) :
    pyLt a b = .ok (decide (a.instKey < b.instKey)) := by
  cases ha : a.tz <;> cases hb : b.tz <;> simp [pyLt, ha, hb] <;> simp [ha, hb] at h

theorem pyMax_ok (a b : PyDT) (h : a.tz.isSome = b.tz.isSome) :
    pyMax a b = .ok (if a.instKey < b.instKey then b else a) := by
  rw [pyMax, pyLt_ok a b h, exceptMap_ok]
  by_cases hc : a.instKey < b.instKey <;> simp [hc]

theorem pyMin_ok (a b : PyDT) (h : a.tz.isSome = b.tz.isSome) :
    pyMin a b = .ok (if b.instKey < a.instKey then b else a) := by
  rw [pyMin, pyLt_ok b a h.symm, exceptMap_ok]
  by_cases hc : b.instKey < a.instKey <;> simp [hc]

theorem pySub_ok (a b : PyDT) (h : a.tz.isSome = b.tz.isSome) :
    pySub a b = .ok (a.instKey - b.instKey) := by
  cases ha : a.tz <;> cases hb : b.tz <;> simp [pySub, ha, hb] <;> simp [ha, hb] at h

theorem normDT_none (d : PyDT) : normDT none d = d := rfl

theorem normDT_tz_some (z : Int) (d : PyDT) : (normDT (some z) d).tz = some z := by
  simp only [normDT]
  split <;> rfl

theorem normDT_instKey_some (z : Int) (d : PyDT) (hd : d.tz.isSome = true) :
    (normDT (some z) d).instKey = d.instKey := by
  obtain ⟨w, hw⟩ := Option.isSome_iff_exists.mp hd
  simp [normDT, hd, PyDT.astimezone, PyDT.instKey, PyDT.key, hw]
  ring

theorem ite_tz {t : Option Int} (c : Prop) [Decidable c] (x y : PyDT)
    (hx : x.tz = t) (hy : y.tz = t) : (if c then x else y).tz = t := by
  split <;> assumption

theorem ite_lt_instKey_max (a b : PyDT) :
    (if a.instKey < b.instKey then b else a).instKey = max a.instKey b.instKey := by
  split <;> omega

theorem ite_lt_instKey_min (a b : PyDT) :
    (if b.instKey < a.instKey then b else a).instKey = min a.instKey b.instKey := by
  split <;> omega

/-- One free-slot iteration succeeds on a compatible event and is simulated
by `coreStep` on instant positions; emitted slots carry the reference
offset. -/
theorem freeStepM_eq (tzi : Option Int) (dayS dayE : PyDT) (ev : CalendarEvent)
    (cur : PyDT) (slots : List FreeTimeSlot)
    (hS : dayS.tz = tzi) (hE : dayE.tz = tzi) (hcur : cur.tz = tzi)
    (hev : EvCompat tzi ev) :
    ∃ cur2 δ,
      freeStepM tzi dayS dayE ev cur slots = .ok (cur2, slots ++ δ)
      ∧ cur2.tz = tzi
      ∧ (cur2.instKey, δ.map slotTriple)
          = coreStep dayS.instKey dayE.instKey (cur.instKey, []) (evPos ev)
      ∧ ∀ sl ∈ δ, sl.start_time.tz = tzi ∧ sl.end_time.tz = tzi := by
  have hes_tz : (normDT tzi ev.start_time).tz = tzi := by
    cases tzi with
    | none => rw [normDT_none]; exact hev.1
    | some z => exact normDT_tz_some z _
  have hee_tz : (normDT tzi ev.end_time).tz = tzi := by
    cases tzi with
    | none => rw [normDT_none]; exact hev.2
    | some z => exact normDT_tz_some z _
  have hes_key : (normDT tzi ev.start_time).instKey = ev.start_time.instKey := by
    cases tzi with
    | none => rw [normDT_none]
    | some z => exact normDT_instKey_some z _ hev.1
  have hee_key : (normDT tzi ev.end_time).instKey = ev.end_time.instKey := by
    cases tzi with
    | none => rw [normDT_none]
    | some z => exact normDT_instKey_some z _ hev.2
  simp only [freeStepM]
  rw [pyMax_ok (normDT tzi ev.start_time) dayS (by rw [hes_tz, hS]), exceptBind_ok]
  rw [pyMin_ok (normDT tzi ev.end_time) dayE (by rw [hee_tz, hE]), exceptBind_ok]
  set esc := if (normDT tzi ev.start_time).instKey < dayS.instKey
    then dayS else normDT tzi ev.start_time with hesc_def
  set eec := if dayE.instKey < (normDT tzi ev.end_time).instKey
    then dayE else normDT tzi ev.end_time with heec_def
  have hesc_tz : esc.tz = tzi := ite_tz _ _ _ hS hes_tz
  have heec_tz : eec.tz = tzi := ite_tz _ _ _ hE hee_tz
  have hesc_key : esc.instKey = max ev.start_time.instKey dayS.instKey := by
    rw [hesc_def, ite_lt_instKey_max, hes_key]
  have heec_key : eec.instKey = min ev.end_time.instKey dayE.instKey := by
    rw [heec_def, ite_lt_instKey_min, hee_key]
  rw [pyLt_ok esc eec (by rw [hesc_tz, heec_tz]), exceptBind_ok]
  simp only [decide_eq_true_eq, coreStep, evPos]
  rw [show max ev.start_time.instKey dayS.instKey = esc.instKey from hesc_key.symm,
    show min ev.end_time.instKey dayE.instKey = eec.instKey from heec_key.symm]
  by_cases hspan : esc.instKey < eec.instKey
  · rw [if_pos hspan, if_pos hspan]
    rw [pyLt_ok cur esc (by rw [hcur, hesc_tz]), exceptBind_ok]
    simp only [decide_eq_true_eq]
    by_cases hafter : cur.instKey < esc.instKey
    · rw [if_pos hafter]
      rw [pySub_ok esc cur (by rw [hesc_tz, hcur]), exceptBind_ok]
      by_cases hdur : minSlotMicros ≤ esc.instKey - cur.instKey
      · rw [if_pos hdur, if_pos (show _ ∧ _ from ⟨hafter, hdur⟩)]
        rw [pyMax_ok cur eec (by rw [hcur, heec_tz]), exceptBind_ok]
        refine ⟨_, [⟨cur, esc, (esc.instKey - cur.instKey) / microsPerMinute⟩],
          rfl, ite_tz _ _ _ heec_tz hcur, ?_, ?_⟩
        · rw [Prod.mk.injEq]
          exact ⟨ite_lt_instKey_max cur eec, by simp [slotTriple]⟩
        · intro sl hsl
          rw [List.mem_singleton] at hsl
          subst hsl
          exact ⟨hcur, hesc_tz⟩
      · rw [if_neg hdur, if_neg (show ¬(_ ∧ _) from fun hc => hdur hc.2)]
        rw [pyMax_ok cur eec (by rw [hcur, heec_tz]), exceptBind_ok]
        refine ⟨if cur.instKey < eec.instKey then eec else cur, [], by simp,
          ite_tz _ _ _ heec_tz hcur, ?_, by simp⟩
        rw [Prod.mk.injEq]
        exact ⟨ite_lt_instKey_max cur eec, rfl⟩
    · rw [if_neg hafter, if_neg (show ¬(_ ∧ _) from fun hc => hafter hc.1)]
      rw [pyMax_ok cur eec (by rw [hcur, heec_tz]), exceptBind_ok]
      refine ⟨if cur.instKey < eec.instKey then eec else cur, [], by simp,
        ite_tz _ _ _ heec_tz hcur, ?_, by simp⟩
      rw [Prod.mk.injEq]
      exact ⟨ite_lt_instKey_max cur eec, rfl⟩
  · rw [if_neg hspan, if_neg hspan]
    exact ⟨cur, [], by simp, hcur, rfl, by simp⟩

/-- `coreStep` only appends to the slot accumulator. -/
theorem coreStep_append (A B : Int) (c : Int) (l : List (Int × Int × Int)) (k : Int × Int) :
    coreStep A B (c, l) k
      = ((coreStep A B (c, []) k).1, l ++ (coreStep A B (c, []) k).2) := by
  simp only [coreStep]
  by_cases h1 : max k.1 A < min k.2 B
  · rw [if_pos h1, if_pos h1]
    by_cases h2 : c < max k.1 A ∧ minSlotMicros ≤ max k.1 A - c
    · rw [if_pos h2, if_pos h2]
      simp
    · rw [if_neg h2, if_neg h2]
      simp
  · rw [if_neg h1, if_neg h1]
    simp

/-- Folding `coreStep` from any slot accumulator only appends. -/
theorem coreFold_append (A B : Int) (ks : List (Int × Int)) :
    ∀ (c : Int) (l : List (Int × Int × Int)),
      List.foldl (coreStep A B) (c, l) ks
        = ((List.foldl (coreStep A B) (c, []) ks).1,
           l ++ (List.foldl (coreStep A B) (c, []) ks).2) := by
  induction ks with
  | nil => intro c l; simp
  | cons k ks ih =>
    intro c l
    rw [List.foldl_cons, List.foldl_cons, coreStep_append A B c l k,
      coreStep_append A B c [] k, List.nil_append]
    rw [ih (coreStep A B (c, []) k).1 (l ++ (coreStep A B (c, []) k).2),
      ih (coreStep A B (c, []) k).1 (coreStep A B (c, []) k).2]
    simp [List.append_assoc]

/-- The free-slot loop succeeds on compatible events and is simulated by
folding `coreStep` over the instant positions. -/
theorem freeLoop_eq (tzi : Option Int) (dayS dayE : PyDT)
    (hS : dayS.tz = tzi) (hE : dayE.tz = tzi) :
    ∀ (evs : List CalendarEvent) (cur : PyDT) (slots : List FreeTimeSlot),
      cur.tz = tzi → (∀ e ∈ evs, EvCompat tzi e) →
      ∃ cur2 δ,
        freeLoop tzi dayS dayE evs cur slots = .ok (cur2, slots ++ δ)
        ∧ cur2.tz = tzi
        ∧ cur2.instKey
            = (List.foldl (coreStep dayS.instKey dayE.instKey) (cur.instKey, [])
                (evs.map evPos)).1
        ∧ δ.map slotTriple
            = (List.foldl (coreStep dayS.instKey dayE.instKey) (cur.instKey, [])
                (evs.map evPos)).2
        ∧ ∀ sl ∈ δ, sl.start_time.tz = tzi ∧ sl.end_time.tz = tzi := by
  intro evs
  induction evs with
  | nil =>
    intro cur slots hcur _
    exact ⟨cur, [], by simp [freeLoop], hcur, rfl, rfl, by simp⟩
  | cons ev rest ih =>
    intro cur slots hcur hcompat
    obtain ⟨cur1, δ1, hstep, htz1, hpair, hδ1tz⟩ :=
      freeStepM_eq tzi dayS dayE ev cur slots hS hE hcur (hcompat ev (by simp))
    have hfst1 : cur1.instKey = (coreStep dayS.instKey dayE.instKey
        (cur.instKey, []) (evPos ev)).1 := congrArg Prod.fst hpair
    have hsnd1 : δ1.map slotTriple = (coreStep dayS.instKey dayE.instKey
        (cur.instKey, []) (evPos ev)).2 := congrArg Prod.snd hpair
    obtain ⟨cur2, δ2, hloop, htz2, hfst2, hsnd2, hδ2tz⟩ :=
      ih cur1 (slots ++ δ1) htz1 (fun e he => hcompat e (by simp [he]))
    refine ⟨cur2, δ1 ++ δ2, ?_, htz2, ?_, ?_, ?_⟩
    · rw [freeLoop, hstep, exceptBind_ok, hloop, List.append_assoc]
    · rw [hfst2, List.map_cons, List.foldl_cons, coreStep_append,
        ← hfst1, ← hsnd1, List.nil_append,
        coreFold_append _ _ _ cur1.instKey (List.map slotTriple δ1)]
    · rw [List.map_cons, List.foldl_cons, coreStep_append,
        ← hfst1, ← hsnd1, List.nil_append,
        coreFold_append _ _ _ cur1.instKey (List.map slotTriple δ1),
        ← hsnd2, ← List.map_append]
    · intro sl hsl
      rcases List.mem_append.mp hsl with h | h
      · exact hδ1tz sl h
      · exact hδ2tz sl h

/-- The trailing-slot computation in terms of instant positions. -/
theorem trailingSlot_eq (dayE cur : PyDT) (h : cur.tz = dayE.tz) :
    trailingSlot dayE cur
      = .ok (if cur.instKey < dayE.instKey ∧ minSlotMicros ≤ dayE.instKey - cur.instKey
          then [⟨cur, dayE, (dayE.instKey - cur.instKey) / microsPerMinute⟩]
          else []) := by
  rw [trailingSlot]
  rw [pyLt_ok cur dayE (by rw [h]), exceptBind_ok]
  simp only [decide_eq_true_eq]
  by_cases h1 : cur.instKey < dayE.instKey
  · rw [if_pos h1]
    rw [pySub_ok dayE cur (by rw [h]), exceptBind_ok]
    by_cases h2 : minSlotMicros ≤ dayE.instKey - cur.instKey
    · rw [if_pos h2, if_pos (show _ ∧ _ from ⟨h1, h2⟩)]
    · rw [if_neg h2, if_neg (show ¬(_ ∧ _) from fun hc => h2 hc.2)]
  · rw [if_neg h1, if_neg (show ¬(_ ∧ _) from fun hc => h1 hc.1)]

/-- The raw-time overlap test succeeds on awareness-uniform events and equals
the pure position test. -/
theorem pyOverlap_ok (e f : CalendarEvent) (k : Bool)
    (h1 : e.start_time.tz.isSome = k) (h2 : f.start_time.tz.isSome = k)
    (h3 : e.end_time.tz.isSome = k) (h4 : f.end_time.tz.isSome = k) :
    pyOverlap e f = .ok (overlapB e f) := by
  rw [pyOverlap]
  rw [pyMax_ok _ _ (h1.trans h2.symm), exceptBind_ok]
  rw [pyMin_ok _ _ (h3.trans h4.symm), exceptBind_ok]
  rw [pyLt_ok _ _ (by split <;> split <;> simp [h1, h2, h3, h4])]
  rw [overlapB, evStartPos, evStartPos, evEndPos, evEndPos,
    ← ite_lt_instKey_max e.start_time f.start_time,
    ← ite_lt_instKey_min e.end_time f.end_time]

/-- The inner conflict loop succeeds on awareness-uniform lists and equals
its pure shadow. -/
theorem innerDetect_eq (k : Bool) (e : CalendarEvent)
    (he1 : e.start_time.tz.isSome = k) (he2 : e.end_time.tz.isSome = k) :
    ∀ (fs : List CalendarEvent) (acc : List CalendarConflict),
      (∀ f ∈ fs, f.start_time.tz.isSome = k ∧ f.end_time.tz.isSome = k) →
      innerDetect e fs acc = .ok (innerDetectP e fs acc)
  | [], _, _ => rfl
  | f :: fs, acc, hfs => by
    rw [innerDetect, innerDetectP]
    rw [pyOverlap_ok e f k he1 (hfs f (by simp)).1 he2 (hfs f (by simp)).2,
      exceptBind_ok]
    have hrest : ∀ g ∈ fs, g.start_time.tz.isSome = k ∧ g.end_time.tz.isSome = k :=
      fun g hg => hfs g (by simp [hg])
    by_cases hov : overlapB e f = true
    · rw [if_pos hov, if_pos hov]
      by_cases hdup : containsPair acc e f = true
      · rw [if_pos hdup, if_pos hdup]
        exact innerDetect_eq k e he1 he2 fs acc hrest
      · rw [if_neg hdup, if_neg hdup]
        exact innerDetect_eq k e he1 he2 fs (acc ++ [mkConflict e f]) hrest
    · rw [if_neg hov, if_neg hov]
      exact innerDetect_eq k e he1 he2 fs acc hrest

/-- The conflict double loop succeeds on awareness-uniform lists and equals
its pure shadow. -/
theorem detectLoop_eq (k : Bool) :
    ∀ (evs : List CalendarEvent) (acc : List CalendarConflict),
      (∀ e ∈ evs, e.start_time.tz.isSome = k ∧ e.end_time.tz.isSome = k) →
      detectLoop evs acc = .ok (detectLoopP evs acc)
  | [], _, _ => rfl
  | e :: rest, acc, h => by
    rw [detectLoop, detectLoopP]
    rw [innerDetect_eq k e (h e (by simp)).1 (h e (by simp)).2 rest acc
      (fun f hf => h f (by simp [hf])), exceptBind_ok]
    exact detectLoop_eq k rest _ (fun f hf => h f (by simp [hf]))

/-- Sorting succeeds on an awareness-uniform list. -/
theorem sortEvents_ok (evs : List CalendarEvent) (k : Bool) (h : HomogK k evs) :
    sortEvents evs = .ok (List.insertionSort evLe evs) := by
  rw [sortEvents, if_neg]
  intro hcond
  rw [Bool.and_eq_true, List.any_eq_true, List.any_eq_true] at hcond
  obtain ⟨⟨a, ha, hna⟩, b, hb, hsb⟩ := hcond
  cases k with
  | false => rw [(h b hb).1] at hsb; cases hsb
  | true =>
    have := (h a ha).1
    rw [Option.isNone_iff_eq_none] at hna
    rw [hna] at this
    cases this

/-- The master bridge: on a uniformly naive or uniformly aware event list,
`analyze_schedule` returns a summary whose events are the stable-sorted input,
whose free slots are (on instant positions) exactly the pure core computation
over the clamped window, carrying the reference offset, and whose conflicts
are the pure conflict scan of the sorted list. -/
theorem analyze_schedule_eq (d : PyDate) (evs : List CalendarEvent) (hH : Homog evs) :
    ∃ s, analyze_schedule d evs = .ok s
      ∧ s.summary_date = d
      ∧ s.events = List.insertionSort evLe evs
      ∧ s.free_slots.map slotTriple
          = coreFree (windowA d (tzInfoOfList evs)) (windowB d (tzInfoOfList evs))
              ((List.insertionSort evLe evs).map evPos)
      ∧ (∀ sl ∈ s.free_slots, sl.start_time.tz = tzInfoOfList evs
            ∧ sl.end_time.tz = tzInfoOfList evs)
      ∧ s.conflicts = detectLoopP (List.insertionSort evLe evs) [] := by
  obtain ⟨k, hk⟩ : ∃ k, HomogK k evs := hH.elim (⟨false, ·⟩) (⟨true, ·⟩)
  have hLhomog : HomogK k (List.insertionSort evLe evs) := by
    intro e he
    exact hk e (by simpa using he)
  have htzik : ∀ e ∈ List.insertionSort evLe evs,
      (tzInfoOfList evs).isSome = k := by
    intro e he
    cases hLs : List.insertionSort evLe evs with
    | nil => rw [hLs] at he; cases he
    | cons e0 r0 =>
      have h0 := hLhomog e0 (by rw [hLs]; exact List.mem_cons_self _ _)
      rw [tzInfoOfList, hLs]
      exact h0.1
  have hcompat : ∀ e ∈ List.insertionSort evLe evs, EvCompat (tzInfoOfList evs) e := by
    intro e he
    have hkk := htzik e he
    have heh := hLhomog e he
    cases htzio : tzInfoOfList evs with
    | none =>
      rw [htzio] at hkk
      rw [EvCompat]
      rw [← Option.isNone_iff_eq_none, ← Option.isNone_iff_eq_none]
      constructor
      · rw [Bool.eq_iff_iff] at hkk ⊢
        rw [Option.isNone_iff_eq_none, ← Option.not_isSome_iff_eq_none]
        rw [heh.1, ← hkk]
        simp
      · rw [Bool.eq_iff_iff] at hkk ⊢
        rw [Option.isNone_iff_eq_none, ← Option.not_isSome_iff_eq_none]
        rw [heh.2, ← hkk]
        simp
    | some z =>
      rw [htzio] at hkk
      rw [EvCompat]
      simp only [Option.isSome_some] at hkk
      exact ⟨heh.1.trans hkk.symm, heh.2.trans hkk.symm⟩
  rw [show tzInfoOfList evs = tzInfoOf (List.insertionSort evLe evs) from rfl] at hcompat htzik
  obtain ⟨cur2, δ, hloop, htz2, hfst, hsnd, hδtz⟩ :=
    freeLoop_eq (tzInfoOf (List.insertionSort evLe evs))
      ⟨d, nineAM, tzInfoOf (List.insertionSort evLe evs)⟩
      ⟨d, fivePM, tzInfoOf (List.insertionSort evLe evs)⟩ rfl rfl
      (List.insertionSort evLe evs)
      ⟨d, nineAM, tzInfoOf (List.insertionSort evLe evs)⟩ [] rfl hcompat
  rw [analyze_schedule]
  rw [sortEvents_ok evs k hk]
  simp only [exceptBind_ok]
  rw [hloop]
  simp only [exceptBind_ok]
  rw [trailingSlot_eq ⟨d, fivePM, tzInfoOf (List.insertionSort evLe evs)⟩ cur2 htz2]
  simp only [exceptBind_ok]
  rw [detectLoop_eq k (List.insertionSort evLe evs) [] hLhomog]
  simp only [exceptBind_ok]
  refine ⟨_, rfl, rfl, rfl, ?_, ?_, rfl⟩
  · rw [List.map_append, List.nil_append]
    rw [coreFree]
    rw [show windowA d (tzInfoOfList evs)
        = (PyDT.mk d nineAM (tzInfoOf (List.insertionSort evLe evs))).instKey from rfl,
      show windowB d (tzInfoOfList evs)
        = (PyDT.mk d fivePM (tzInfoOf (List.insertionSort evLe evs))).instKey from rfl]
    rw [← hsnd, ← hfst]
    by_cases hc : cur2.instKey < (PyDT.mk d fivePM
        (tzInfoOf (List.insertionSort evLe evs))).instKey
      ∧ minSlotMicros ≤ (PyDT.mk d fivePM
        (tzInfoOf (List.insertionSort evLe evs))).instKey - cur2.instKey
    · rw [if_pos hc, if_pos hc]
      simp [slotTriple]
    · rw [if_neg hc, if_neg hc]
      simp
  · intro sl hsl
    rw [List.nil_append] at hsl
    rcases List.mem_append.mp hsl with h | h
    · exact hδtz sl h
    · by_cases hc : cur2.instKey < (PyDT.mk d fivePM
          (tzInfoOf (List.insertionSort evLe evs))).instKey
        ∧ minSlotMicros ≤ (PyDT.mk d fivePM
          (tzInfoOf (List.insertionSort evLe evs))).instKey - cur2.instKey
      · rw [if_pos hc] at h
        rw [List.mem_singleton] at h
        subst h
        exact ⟨htz2, rfl⟩
      · rw [if_neg hc] at h
        cases h

/-- The free-slot fold invariant: starting from a cursor inside the window
with well-formed slots below it, folding the (start-sorted) event positions
keeps the cursor monotone and inside the window and keeps the slots
well-formed, ordered, disjoint from every instant covered by any event, and
covering the window below the cursor up to sub-minimum gaps. -/
theorem coreFold_inv (A B : Int) :
    ∀ (ks : List (Int × Int)) (c : Int) (l : List (Int × Int × Int))
      (past past2 : Int → Prop),
      List.Pairwise (fun p q => p.1 ≤ q.1) ks →
      (∀ u, past2 u ↔ (past u ∨ ∃ p ∈ ks, covers A B p u)) →
      A ≤ c → c ≤ B →
      triplesOk A c l →
      List.Pairwise (fun t u => t.2.1 ≤ u.1) l →
      (∀ t ∈ l, ∀ p ∈ ks, t.2.1 ≤ max p.1 A) →
      (∀ u, past u → u < c) →
      (∀ t ∈ l, ∀ u, past u → u < t.1 ∨ t.2.1 ≤ u) →
      (∀ u, A ≤ u → u < c →
        inTriples l u ∨ past u ∨
        ∃ a b, a ≤ u ∧ u < b ∧ b - a < minSlotMicros ∧ b ≤ c ∧
          ∀ v, a ≤ v → v < b → ¬ inTriples l v ∧ ¬ past2 v) →
      c ≤ (List.foldl (coreStep A B) (c, l) ks).1
      ∧ A ≤ (List.foldl (coreStep A B) (c, l) ks).1
      ∧ (List.foldl (coreStep A B) (c, l) ks).1 ≤ B
      ∧ triplesOk A (List.foldl (coreStep A B) (c, l) ks).1
          (List.foldl (coreStep A B) (c, l) ks).2
      ∧ List.Pairwise (fun t u => t.2.1 ≤ u.1)
          (List.foldl (coreStep A B) (c, l) ks).2
      ∧ (∀ u, past2 u → u < (List.foldl (coreStep A B) (c, l) ks).1)
      ∧ (∀ t ∈ (List.foldl (coreStep A B) (c, l) ks).2, ∀ u,
          past2 u → u < t.1 ∨ t.2.1 ≤ u)
      ∧ (∀ u, A ≤ u → u < (List.foldl (coreStep A B) (c, l) ks).1 →
          inTriples (List.foldl (coreStep A B) (c, l) ks).2 u ∨ past2 u ∨
          ∃ a b, a ≤ u ∧ u < b ∧ b - a < minSlotMicros
            ∧ b ≤ (List.foldl (coreStep A B) (c, l) ks).1
            ∧ ∀ v, a ≤ v → v < b →
              ¬ inTriples (List.foldl (coreStep A B) (c, l) ks).2 v ∧ ¬ past2 v) := by
  intro ks
  induction ks with
  | nil =>
    intro c l past past2 hsorted hiff hAc hcB htri hpw hlks hpast hlpast hcov
    simp only [List.foldl_nil]
    have hp2 : ∀ u, past2 u ↔ past u := by
      intro u
      rw [hiff u]
      simp
    refine ⟨le_refl c, hAc, hcB, htri, hpw, ?_, ?_, ?_⟩
    · intro u hu
      exact hpast u ((hp2 u).mp hu)
    · intro t ht u hu
      exact hlpast t ht u ((hp2 u).mp hu)
    · intro u hA hc2
      rcases hcov u hA hc2 with h | h | ⟨a, b, h1, h2, h3, h4, h5⟩
      · exact Or.inl h
      · exact Or.inr (Or.inl ((hp2 u).mpr h))
      · exact Or.inr (Or.inr ⟨a, b, h1, h2, h3, h4, h5⟩)
  | cons p ks ih =>
    intro c l past past2 hsorted hiff hAc hcB htri hpw hlks hpast hlpast hcov
    obtain ⟨hpks, hsorted2⟩ := List.pairwise_cons.mp hsorted
    have hiff2 : ∀ u, past2 u ↔
        ((fun u => past u ∨ covers A B p u) u ∨ ∃ q ∈ ks, covers A B q u) := by
      intro u
      rw [hiff u, List.exists_mem_cons_iff]
      tauto
    have hlksp : ∀ t ∈ l, t.2.1 ≤ max p.1 A :=
      fun t ht => hlks t ht p (List.mem_cons_self p ks)
    have hlks2 : ∀ t ∈ l, ∀ q ∈ ks, t.2.1 ≤ max q.1 A :=
      fun t ht q hq => hlks t ht q (List.mem_cons_of_mem p hq)
    have hmono : ∀ q ∈ ks, max p.1 A ≤ max q.1 A := by
      intro q hq
      have := hpks q hq
      omega
    rw [List.foldl_cons]
    by_cases hspan : max p.1 A < min p.2 B
    · have hstep : coreStep A B (c, l) p
          = (max c (min p.2 B),
             if c < max p.1 A ∧ minSlotMicros ≤ max p.1 A - c then
               l ++ [(c, max p.1 A, (max p.1 A - c) / microsPerMinute)]
             else l) := by
        simp only [coreStep]
        rw [if_pos hspan]
      rw [hstep]
      by_cases hemit : c < max p.1 A ∧ minSlotMicros ≤ max p.1 A - c
      · rw [if_pos hemit]
        have hres := ih (max c (min p.2 B))
          (l ++ [(c, max p.1 A, (max p.1 A - c) / microsPerMinute)])
          (fun u => past u ∨ covers A B p u) past2 hsorted2 hiff2
          (by omega) (by omega) ?htri1 ?hpw1 ?hlks1 ?hpast1 ?hlpast1 ?hcov1
        · exact ⟨by omega, hres.2⟩
        case htri1 =>
          intro t ht
          rcases List.mem_append.mp ht with ht | ht
          · obtain ⟨u1, u2, u3, u4⟩ := htri t ht
            exact ⟨u1, u2, by omega, u4⟩
          · rw [List.mem_singleton] at ht
            subst ht
            refine ⟨hAc, ?_, ?_, rfl⟩
            · show c + minSlotMicros ≤ max p.1 A
              omega
            · show max p.1 A ≤ max c (min p.2 B)
              omega
        case hpw1 =>
          rw [List.pairwise_append]
          refine ⟨hpw, List.pairwise_singleton _ _, ?_⟩
          intro t ht u hu
          rw [List.mem_singleton] at hu
          subst hu
          show t.2.1 ≤ c
          exact (htri t ht).2.2.1
        case hlks1 =>
          intro t ht q hq
          rcases List.mem_append.mp ht with ht | ht
          · exact hlks2 t ht q hq
          · rw [List.mem_singleton] at ht
            subst ht
            show max p.1 A ≤ max q.1 A
            exact hmono q hq
        case hpast1 =>
          intro u hu
          rcases hu with hu | hu
          · have := hpast u hu
            omega
          · obtain ⟨hu1, hu2⟩ := hu
            omega
        case hlpast1 =>
          intro t ht u hu
          rcases List.mem_append.mp ht with ht | ht
          · rcases hu with hu | hu
            · exact hlpast t ht u hu
            · obtain ⟨hu1, hu2⟩ := hu
              have := hlksp t ht
              omega
          · rw [List.mem_singleton] at ht
            subst ht
            show u < c ∨ max p.1 A ≤ u
            rcases hu with hu | hu
            · have := hpast u hu
              omega
            · obtain ⟨hu1, hu2⟩ := hu
              omega
        case hcov1 =>
          intro u hA2 hu
          by_cases huc : u < c
          · rcases hcov u hA2 huc with h | h | ⟨a, b, h1, h2, h3, h4, h5⟩
            · obtain ⟨t, ht, hcov2⟩ := h
              exact Or.inl ⟨t, List.mem_append_left _ ht, hcov2⟩
            · exact Or.inr (Or.inl (Or.inl h))
            · refine Or.inr (Or.inr ⟨a, b, h1, h2, h3, by omega, ?_⟩)
              intro v hv1 hv2
              obtain ⟨hni, hnp⟩ := h5 v hv1 hv2
              refine ⟨?_, hnp⟩
              intro ⟨t, ht, hcov2⟩
              rcases List.mem_append.mp ht with ht | ht
              · exact hni ⟨t, ht, hcov2⟩
              · rw [List.mem_singleton] at ht
                subst ht
                have hcv : c ≤ v ∧ v < max p.1 A := hcov2
                omega
          · by_cases hus : u < max p.1 A
            · refine Or.inl ⟨(c, max p.1 A, (max p.1 A - c) / microsPerMinute),
                List.mem_append_right _ (List.mem_singleton_self _),
                show c ≤ u by omega, show u < max p.1 A by omega⟩
            · refine Or.inr (Or.inl (Or.inr ⟨by omega, by omega⟩))
      · rw [if_neg hemit]
        have hres := ih (max c (min p.2 B)) l
          (fun u => past u ∨ covers A B p u) past2 hsorted2 hiff2
          (by omega) (by omega) ?htri1 hpw ?hlks1 ?hpast1 ?hlpast1 ?hcov1
        · exact ⟨by omega, hres.2⟩
        case htri1 =>
          intro t ht
          obtain ⟨u1, u2, u3, u4⟩ := htri t ht
          exact ⟨u1, u2, by omega, u4⟩
        case hlks1 => exact hlks2
        case hpast1 =>
          intro u hu
          rcases hu with hu | hu
          · have := hpast u hu
            omega
          · obtain ⟨hu1, hu2⟩ := hu
            omega
        case hlpast1 =>
          intro t ht u hu
          rcases hu with hu | hu
          · exact hlpast t ht u hu
          · obtain ⟨hu1, hu2⟩ := hu
            have := hlksp t ht
            omega
        case hcov1 =>
          intro u hA2 hu
          by_cases huc : u < c
          · rcases hcov u hA2 huc with h | h | ⟨a, b, h1, h2, h3, h4, h5⟩
            · exact Or.inl h
            · exact Or.inr (Or.inl (Or.inl h))
            · exact Or.inr (Or.inr ⟨a, b, h1, h2, h3, by omega, h5⟩)
          · by_cases hus : u < max p.1 A
            · have hcs : c < max p.1 A := by omega
              have hsmall : max p.1 A - c < minSlotMicros := by
                rcases not_and_or.mp hemit with h | h
                · omega
                · omega
              refine Or.inr (Or.inr ⟨c, max p.1 A, by omega, hus, by omega, by omega, ?_⟩)
              intro v hv1 hv2
              refine ⟨?_, ?_⟩
              · intro ⟨t, ht, hcov2⟩
                have := (htri t ht).2.2.1
                omega
              · intro hp2
                rcases (hiff v).mp hp2 with hv | ⟨q, hq, hcq1, hcq2⟩
                · have := hpast v hv
                  omega
                · rcases List.mem_cons.mp hq with hq | hq
                  · subst hq
                    omega
                  · have := hmono q hq
                    omega
            · exact Or.inr (Or.inl (Or.inr ⟨by omega, by omega⟩))
    · have hstep : coreStep A B (c, l) p = (c, l) := by
        simp only [coreStep]
        rw [if_neg hspan]
      rw [hstep]
      have hemp : ∀ u, ¬ covers A B p u := by
        intro u hu
        obtain ⟨h1, h2⟩ := hu
        omega
      exact ih c l (fun u => past u ∨ covers A B p u) past2 hsorted2 hiff2
        hAc hcB htri hpw hlks2
        (fun u hu => hu.elim (hpast u) (fun hc2 => absurd hc2 (hemp u)))
        (fun t ht u hu => hu.elim (hlpast t ht u) (fun hc2 => absurd hc2 (hemp u)))
        (fun u hA2 hu => by
          rcases hcov u hA2 hu with h | h | ⟨a, b, h1, h2, h3, h4, h5⟩
          · exact Or.inl h
          · exact Or.inr (Or.inl (Or.inl h))
          · exact Or.inr (Or.inr ⟨a, b, h1, h2, h3, h4, h5⟩))

/-- Full free-slot computation invariant, including the trailing slot: the
produced triples are well-formed, ordered and disjoint, no covered instant
lies in a slot, and the window is covered up to sub-minimum gaps. -/
theorem coreFree_inv (A B : Int) (hAB : A ≤ B) (ks : List (Int × Int))
    (hsorted : List.Pairwise (fun p q => p.1 ≤ q.1) ks) :
    (∀ t ∈ coreFree A B ks, A ≤ t.1 ∧ t.1 + minSlotMicros ≤ t.2.1 ∧ t.2.1 ≤ B
        ∧ t.2.2 = (t.2.1 - t.1) / microsPerMinute)
    ∧ List.Pairwise (fun t u => t.2.1 ≤ u.1) (coreFree A B ks)
    ∧ (∀ t ∈ coreFree A B ks, ∀ p ∈ ks, ∀ u, covers A B p u →
        u < t.1 ∨ t.2.1 ≤ u)
    ∧ (∀ u, A ≤ u → u < B →
        inTriples (coreFree A B ks) u ∨ (∃ p ∈ ks, covers A B p u) ∨
        ∃ a b, a ≤ u ∧ u < b ∧ b - a < minSlotMicros ∧
          ∀ v, a ≤ v → v < b →
            ¬ inTriples (coreFree A B ks) v ∧ ∀ p ∈ ks, ¬ covers A B p v) := by
  obtain ⟨hm1, hm2, hm3, hm4, hm5, hm6, hm7, hm8⟩ :=
    coreFold_inv A B ks A [] (fun _ => False)
      (fun u => ∃ p ∈ ks, covers A B p u) hsorted
      (by intro u; simp) (le_refl A) hAB
      (by intro t ht; cases ht)
      List.Pairwise.nil
      (by intro t ht; cases ht)
      (by intro u hu; cases hu)
      (by intro t ht; cases ht)
      (by intro u h1 h2; omega)
  have hcf : coreFree A B ks
      = (List.foldl (coreStep A B) (A, []) ks).2
        ++ (if (List.foldl (coreStep A B) (A, []) ks).1 < B
              ∧ minSlotMicros ≤ B - (List.foldl (coreStep A B) (A, []) ks).1 then
            [((List.foldl (coreStep A B) (A, []) ks).1, B,
              (B - (List.foldl (coreStep A B) (A, []) ks).1) / microsPerMinute)]
          else []) := rfl
  rw [hcf]
  by_cases htr : (List.foldl (coreStep A B) (A, []) ks).1 < B
      ∧ minSlotMicros ≤ B - (List.foldl (coreStep A B) (A, []) ks).1
  · rw [if_pos htr]
    refine ⟨?_, ?_, ?_, ?_⟩
    · intro t ht
      rcases List.mem_append.mp ht with ht | ht
      · obtain ⟨u1, u2, u3, u4⟩ := hm4 t ht
        exact ⟨u1, u2, by omega, u4⟩
      · rw [List.mem_singleton] at ht
        subst ht
        exact ⟨hm2, by
          show (List.foldl (coreStep A B) (A, []) ks).1 + minSlotMicros ≤ B
          omega, le_refl B, rfl⟩
    · rw [List.pairwise_append]
      refine ⟨hm5, List.pairwise_singleton _ _, ?_⟩
      intro t ht u hu
      rw [List.mem_singleton] at hu
      subst hu
      show t.2.1 ≤ (List.foldl (coreStep A B) (A, []) ks).1
      exact (hm4 t ht).2.2.1
    · intro t ht p hp u hu
      rcases List.mem_append.mp ht with ht | ht
      · exact hm7 t ht u ⟨p, hp, hu⟩
      · rw [List.mem_singleton] at ht
        subst ht
        have := hm6 u ⟨p, hp, hu⟩
        left
        show u < (List.foldl (coreStep A B) (A, []) ks).1
        exact this
    · intro u hA hB
      by_cases huc : u < (List.foldl (coreStep A B) (A, []) ks).1
      · rcases hm8 u hA huc with h | h | ⟨a, b, h1, h2, h3, h4, h5⟩
        · obtain ⟨t, ht, hc⟩ := h
          exact Or.inl ⟨t, List.mem_append_left _ ht, hc⟩
        · exact Or.inr (Or.inl h)
        · refine Or.inr (Or.inr ⟨a, b, h1, h2, h3, ?_⟩)
          intro v hv1 hv2
          obtain ⟨hni, hnp⟩ := h5 v hv1 hv2
          refine ⟨?_, fun p hp hcv => hnp ⟨p, hp, hcv⟩⟩
          intro ⟨t, ht, hc⟩
          rcases List.mem_append.mp ht with ht | ht
          · exact hni ⟨t, ht, hc⟩
          · rw [List.mem_singleton] at ht
            subst ht
            obtain ⟨hc1, hc2⟩ := hc
            have : (List.foldl (coreStep A B) (A, []) ks).1 ≤ v := hc1
            omega
      · refine Or.inl ⟨((List.foldl (coreStep A B) (A, []) ks).1, B,
          (B - (List.foldl (coreStep A B) (A, []) ks).1) / microsPerMinute),
          List.mem_append_right _ (List.mem_singleton_self _),
          show (List.foldl (coreStep A B) (A, []) ks).1 ≤ u by omega,
          show u < B by omega⟩
  · rw [if_neg htr]
    rw [List.append_nil]
    refine ⟨?_, hm5, ?_, ?_⟩
    · intro t ht
      obtain ⟨u1, u2, u3, u4⟩ := hm4 t ht
      exact ⟨u1, u2, by omega, u4⟩
    · intro t ht p hp u hu
      exact hm7 t ht u ⟨p, hp, hu⟩
    · intro u hA hB
      by_cases huc : u < (List.foldl (coreStep A B) (A, []) ks).1
      · rcases hm8 u hA huc with h | h | ⟨a, b, h1, h2, h3, h4, h5⟩
        · exact Or.inl h
        · exact Or.inr (Or.inl h)
        · exact Or.inr (Or.inr ⟨a, b, h1, h2, h3,
            fun v hv1 hv2 => ⟨(h5 v hv1 hv2).1,
              fun p hp hcv => (h5 v hv1 hv2).2 ⟨p, hp, hcv⟩⟩⟩)
      · have hsm : B - (List.foldl (coreStep A B) (A, []) ks).1 < minSlotMicros := by
          rcases not_and_or.mp htr with h | h
          · omega
          · omega
        refine Or.inr (Or.inr ⟨(List.foldl (coreStep A B) (A, []) ks).1, B,
          by omega, hB, by omega, ?_⟩)
        intro v hv1 hv2
        refine ⟨?_, ?_⟩
        · intro ⟨t, ht, hc⟩
          have := (hm4 t ht).2.2.1
          obtain ⟨hc1, hc2⟩ := hc
          omega
        · intro p hp hcv
          have := hm6 v ⟨p, hp, hcv⟩
          omega

/-- The working-hours window is non-degenerate. -/
theorem windowAB_le (d : PyDate) (tzi : Option Int) : windowA d tzi ≤ windowB d tzi := by
  have h1 : windowA d tzi = d.toOrd * microsPerDay + 32400000000 - tzi.getD 0 := rfl
  have h2 : windowB d tzi = d.toOrd * microsPerDay + 61200000000 - tzi.getD 0 := rfl
  omega

/-- The sorted event list yields start-sorted position pairs. -/
theorem ksSorted (evs : List CalendarEvent) :
    List.Pairwise (fun p q : Int × Int => p.1 ≤ q.1)
      ((List.insertionSort evLe evs).map evPos) := by
  rw [List.pairwise_map]
  exact (List.sorted_insertionSort evLe evs).imp (fun h => h)

/-- C1 (amended): on a uniformly naive or uniformly aware event list, the free
slots are pairwise disjoint and time-ordered, each at least the 15-minute
minimum duration and inside the 09:00-17:00 window, no slot instant is
covered by any clamped event, and every window instant is in a free slot, in
a clamped event, or in an uncovered gap shorter than the minimum duration
(the code deliberately drops sub-15-minute gaps, so the cover is exact only
up to such gaps). -/
theorem analyze_free_slots_amended (d : PyDate) (evs : List CalendarEvent)
    (hH : Homog evs) (s : CalendarSummaryOutput)
    (hs : analyze_schedule d evs = .ok s) :
    List.Pairwise (fun sl1 sl2 => sl1.end_time.instKey ≤ sl2.start_time.instKey)
      s.free_slots
    ∧ (∀ sl ∈ s.free_slots,
        windowA d (tzInfoOfList evs) ≤ sl.start_time.instKey
        ∧ sl.start_time.instKey + minSlotMicros ≤ sl.end_time.instKey
        ∧ sl.end_time.instKey ≤ windowB d (tzInfoOfList evs))
    ∧ (∀ sl ∈ s.free_slots, ∀ ev ∈ evs, ∀ u : Int,
        covers (windowA d (tzInfoOfList evs)) (windowB d (tzInfoOfList evs))
          (evPos ev) u →
        u < sl.start_time.instKey ∨ sl.end_time.instKey ≤ u)
    ∧ (∀ u : Int, windowA d (tzInfoOfList evs) ≤ u →
        u < windowB d (tzInfoOfList evs) →
        (∃ sl ∈ s.free_slots, sl.start_time.instKey ≤ u ∧ u < sl.end_time.instKey)
        ∨ (∃ ev ∈ evs, covers (windowA d (tzInfoOfList evs))
            (windowB d (tzInfoOfList evs)) (evPos ev) u)
        ∨ ∃ a b : Int, a ≤ u ∧ u < b ∧ b - a < minSlotMicros ∧
            ∀ v : Int, a ≤ v → v < b →
              (∀ sl ∈ s.free_slots,
                v < sl.start_time.instKey ∨ sl.end_time.instKey ≤ v)
              ∧ ∀ ev ∈ evs, ¬ covers (windowA d (tzInfoOfList evs))
                  (windowB d (tzInfoOfList evs)) (evPos ev) v) := by
  obtain ⟨s2, hs2, hdate, hevents, hslots, htzs, hconf⟩ := analyze_schedule_eq d evs hH
  rw [hs] at hs2
  injection hs2 with hs2
  subst hs2
  obtain ⟨hc1, hc2, hc3, hc4⟩ :=
    coreFree_inv (windowA d (tzInfoOfList evs)) (windowB d (tzInfoOfList evs))
      (windowAB_le d _) ((List.insertionSort evLe evs).map evPos) (ksSorted evs)
  rw [← hslots] at hc1 hc2 hc3 hc4
  refine ⟨?_, ?_, ?_, ?_⟩
  · exact (List.pairwise_map.mp hc2).imp (fun h => h)
  · intro sl hsl
    obtain ⟨u1, u2, u3, u4⟩ := hc1 (slotTriple sl) (List.mem_map_of_mem _ hsl)
    exact ⟨u1, u2, u3⟩
  · intro sl hsl ev hev u hu
    exact hc3 (slotTriple sl) (List.mem_map_of_mem _ hsl) (evPos ev)
      (List.mem_map_of_mem _ ((List.mem_insertionSort evLe).mpr hev)) u hu
  · intro u hA hB
    rcases hc4 u hA hB with h | h | ⟨a, b, h1, h2, h3, h5⟩
    · obtain ⟨t, ht, hcv⟩ := h
      obtain ⟨sl, hsl, rfl⟩ := List.mem_map.mp ht
      exact Or.inl ⟨sl, hsl, hcv⟩
    · obtain ⟨p, hp, hcv⟩ := h
      obtain ⟨ev, hev, rfl⟩ := List.mem_map.mp hp
      exact Or.inr (Or.inl ⟨ev, (List.mem_insertionSort evLe).mp hev, hcv⟩)
    · refine Or.inr (Or.inr ⟨a, b, h1, h2, h3, ?_⟩)
      intro v hv1 hv2
      obtain ⟨hni, hnp⟩ := h5 v hv1 hv2
      refine ⟨?_, ?_⟩
      · intro sl hsl
        by_contra hcon
        push_neg at hcon
        exact hni ⟨slotTriple sl, List.mem_map_of_mem _ hsl, hcon.1, hcon.2⟩
      · intro ev hev hcv
        exact hnp (evPos ev)
          (List.mem_map_of_mem _ ((List.mem_insertionSort evLe).mpr hev)) hcv

/-- Counterexample to C1 as stated: with events 09:00-12:00 and 12:05-17:00,
the analysis succeeds but the instant 12:02 inside the working-hours window
is in no free slot (the 5-minute gap is below the minimum duration) and in no
clamped event, so the slots and events do not exactly cover the window. -/
theorem analyze_free_slots_counterexample :
    exceptOk (analyze_schedule ⟨2025, 4, 15⟩
      [⟨⟨⟨2025, 4, 15⟩, 32400000000, none⟩, ⟨⟨2025, 4, 15⟩, 43200000000, none⟩, "A", none⟩,
       ⟨⟨⟨2025, 4, 15⟩, 43500000000, none⟩, ⟨⟨2025, 4, 15⟩, 61200000000, none⟩, "B", none⟩]) = true
    ∧ windowA ⟨2025, 4, 15⟩ (tzInfoOfList
        [⟨⟨⟨2025, 4, 15⟩, 32400000000, none⟩, ⟨⟨2025, 4, 15⟩, 43200000000, none⟩, "A", none⟩,
         ⟨⟨⟨2025, 4, 15⟩, 43500000000, none⟩, ⟨⟨2025, 4, 15⟩, 61200000000, none⟩, "B", none⟩])
        ≤ (PyDT.mk ⟨2025, 4, 15⟩ 43320000000 none).instKey
    ∧ (PyDT.mk ⟨2025, 4, 15⟩ 43320000000 none).instKey
        < windowB ⟨2025, 4, 15⟩ (tzInfoOfList
        [⟨⟨⟨2025, 4, 15⟩, 32400000000, none⟩, ⟨⟨2025, 4, 15⟩, 43200000000, none⟩, "A", none⟩,
         ⟨⟨⟨2025, 4, 15⟩, 43500000000, none⟩, ⟨⟨2025, 4, 15⟩, 61200000000, none⟩, "B", none⟩])
    ∧ (∀ sl ∈ freeSlotsOf ⟨2025, 4, 15⟩
        [⟨⟨⟨2025, 4, 15⟩, 32400000000, none⟩, ⟨⟨2025, 4, 15⟩, 43200000000, none⟩, "A", none⟩,
         ⟨⟨⟨2025, 4, 15⟩, 43500000000, none⟩, ⟨⟨2025, 4, 15⟩, 61200000000, none⟩, "B", none⟩],
        ¬(sl.start_time.instKey ≤ (PyDT.mk ⟨2025, 4, 15⟩ 43320000000 none).instKey
          ∧ (PyDT.mk ⟨2025, 4, 15⟩ 43320000000 none).instKey < sl.end_time.instKey))
    ∧ (∀ ev ∈
        [⟨⟨⟨2025, 4, 15⟩, 32400000000, none⟩, ⟨⟨2025, 4, 15⟩, 43200000000, none⟩, "A", none⟩,
         (⟨⟨⟨2025, 4, 15⟩, 43500000000, none⟩, ⟨⟨2025, 4, 15⟩, 61200000000, none⟩, "B", none⟩ :
           CalendarEvent)],
        ¬ covers (windowA ⟨2025, 4, 15⟩ (tzInfoOfList
            [⟨⟨⟨2025, 4, 15⟩, 32400000000, none⟩, ⟨⟨2025, 4, 15⟩, 43200000000, none⟩, "A", none⟩,
             ⟨⟨⟨2025, 4, 15⟩, 43500000000, none⟩, ⟨⟨2025, 4, 15⟩, 61200000000, none⟩, "B", none⟩]))
          (windowB ⟨2025, 4, 15⟩ (tzInfoOfList
            [⟨⟨⟨2025, 4, 15⟩, 32400000000, none⟩, ⟨⟨2025, 4, 15⟩, 43200000000, none⟩, "A", none⟩,
             ⟨⟨⟨2025, 4, 15⟩, 43500000000, none⟩, ⟨⟨2025, 4, 15⟩, 61200000000, none⟩, "B", none⟩]))
          (evPos ev) (PyDT.mk ⟨2025, 4, 15⟩ 43320000000 none).instKey) := by
  decide

/-- Witness for the amended C1 at the empty event list. -/
theorem analyze_free_slots_witness :
    Homog ([] : List CalendarEvent)
    ∧ List.Pairwise
        (fun sl1 sl2 : FreeTimeSlot => sl1.end_time.instKey ≤ sl2.start_time.instKey)
        (CalendarSummaryOutput.mk ⟨2025, 4, 15⟩ []
          [⟨⟨⟨2025, 4, 15⟩, nineAM, none⟩, ⟨⟨2025, 4, 15⟩, fivePM, none⟩, 480⟩]
          []).free_slots :=
  ⟨Or.inl (fun e he => absurd he (List.not_mem_nil e)),
    (analyze_free_slots_amended ⟨2025, 4, 15⟩ []
      (Or.inl (fun e he => absurd he (List.not_mem_nil e)))
      (CalendarSummaryOutput.mk ⟨2025, 4, 15⟩ []
        [⟨⟨⟨2025, 4, 15⟩, nineAM, none⟩, ⟨⟨2025, 4, 15⟩, fivePM, none⟩, 480⟩]
        []) rfl).1⟩

/-- C10: every emitted free slot records `duration_minutes` as the slot
length in microseconds divided by 60 000 000 rounding down (equivalently the
floor of the length in seconds divided by 60; the length is positive, indeed
at least the 15-minute minimum, so truncation and floor agree and seconds
beyond a whole minute are discarded, never rounded up). -/
theorem free_slot_duration_floor (d : PyDate) (evs : List CalendarEvent)
    (hH : Homog evs) (s : CalendarSummaryOutput)
    (hs : analyze_schedule d evs = .ok s) :
    ∀ sl ∈ s.free_slots,
      sl.duration_minutes
          = (sl.end_time.instKey - sl.start_time.instKey) / microsPerMinute
      ∧ minSlotMicros ≤ sl.end_time.instKey - sl.start_time.instKey := by
  obtain ⟨s2, hs2, hdate, hevents, hslots, htzs, hconf⟩ := analyze_schedule_eq d evs hH
  rw [hs] at hs2
  injection hs2 with hs2
  subst hs2
  obtain ⟨hc1, hc2, hc3, hc4⟩ :=
    coreFree_inv (windowA d (tzInfoOfList evs)) (windowB d (tzInfoOfList evs))
      (windowAB_le d _) ((List.insertionSort evLe evs).map evPos) (ksSorted evs)
  rw [← hslots] at hc1
  intro sl hsl
  obtain ⟨u1, u2, u3, u4⟩ := hc1 (slotTriple sl) (List.mem_map_of_mem _ hsl)
  exact ⟨u4, by
    have h2 : sl.start_time.instKey + minSlotMicros ≤ sl.end_time.instKey := u2
    omega⟩

/-- Witness for C10 at the empty event list. -/
theorem free_slot_duration_floor_witness :
    Homog ([] : List CalendarEvent)
    ∧ ∀ sl ∈ (CalendarSummaryOutput.mk ⟨2025, 4, 15⟩ []
        [⟨⟨⟨2025, 4, 15⟩, nineAM, none⟩, ⟨⟨2025, 4, 15⟩, fivePM, none⟩, 480⟩]
        []).free_slots,
      sl.duration_minutes
          = (sl.end_time.instKey - sl.start_time.instKey) / microsPerMinute
      ∧ minSlotMicros ≤ sl.end_time.instKey - sl.start_time.instKey :=
  ⟨Or.inl (fun e he => absurd he (List.not_mem_nil e)),
    free_slot_duration_floor ⟨2025, 4, 15⟩ []
      (Or.inl (fun e he => absurd he (List.not_mem_nil e)))
      (CalendarSummaryOutput.mk ⟨2025, 4, 15⟩ []
        [⟨⟨⟨2025, 4, 15⟩, nineAM, none⟩, ⟨⟨2025, 4, 15⟩, fivePM, none⟩, 480⟩]
        []) rfl⟩

/-- C4 (the code at the failing input): a well-formed list that mixes a naive
event with a timezone-aware one makes `analyze_schedule` raise a `TypeError`
inside `events.sort` — the normalisation branch for naive events later in the
loop is unreachable — instead of returning a summary as the claim states. -/
theorem analyze_schedule_mixed_raises :
    analyze_schedule ⟨2025, 4, 15⟩
      [⟨⟨⟨2025, 4, 15⟩, 32400000000, none⟩, ⟨⟨2025, 4, 15⟩, 36000000000, none⟩, "A", none⟩,
       ⟨⟨⟨2025, 4, 15⟩, 34200000000, some 0⟩, ⟨⟨2025, 4, 15⟩, 37800000000, some 0⟩, "B", none⟩]
      = .error cmpErr := rfl

/-- C7: the consolidated daily plan is always sorted ascending by
time-of-day, for any combination of present/absent inputs; ties preserve the
relative order in which the three groups were appended (stated as: filtering
the plan at any fixed time-of-day returns exactly the same-time items of the
concatenated events-then-tasks-then-recommendations sequence, in that order);
and any `ConsolidatedDailyPlanOutput` built by the `sort_plan_by_time`
validator from an arbitrary item list is sorted as well. -/
theorem combine_plan_sorted_and_stable (target_date : PyDate)
    (cs : Option CalendarSummaryOutput) (tl : Option PrioritizedTaskListOutput)
    (ci : Option ContextOutput) (d2 : PyDate) (items : List PlanItem)
    (s2 : Option String) :
    List.Sorted itemLe (combine_agent_outputs target_date cs tl ci).plan
    ∧ (∀ t : Nat,
        (combine_agent_outputs target_date cs tl ci).plan.filter
            (fun it => it.time == t)
          = ((match cs with
               | some c => eventPlanItems c
               | none => [])
             ++ (match tl with
                  | some l2 => taskPlanItems l2
                  | none => [])
             ++ (match ci with
                  | some c => recPlanItems c
                  | none => [])).filter fun it => it.time == t)
    ∧ List.Sorted itemLe (mkConsolidated d2 items s2).plan := by
  have hp : ∀ (t0 : Nat) (x y : PlanItem),
      (x.time == t0) = true → (y.time == t0) = true → itemLe x y := by
    intro t0 x y hx hy
    have hx2 : x.time = t0 := by simpa using hx
    have hy2 : y.time = t0 := by simpa using hy
    simp [itemLe, hx2, hy2]
  refine ⟨?_, ?_, ?_⟩
  · exact List.sorted_insertionSort itemLe _
  · intro t
    show (List.insertionSort itemLe (List.insertionSort itemLe _)).filter _ = _
    rw [filter_insertionSort itemLe _ (hp t), filter_insertionSort itemLe _ (hp t)]
  · exact List.sorted_insertionSort itemLe _

/-- C8: with any subset of the three inputs absent, a plan is still produced,
absent inputs contribute zero items (the plan has exactly as many items as
the present inputs supply), and the summary string is exactly the
`"Plan for <date>. Events: <n>. Tasks: <n>. Recommendations: <n>."` template
with absent counts zero. -/
theorem combine_absent_inputs_degrade (target_date : PyDate)
    (cs : Option CalendarSummaryOutput) (tl : Option PrioritizedTaskListOutput)
    (ci : Option ContextOutput) :
    (combine_agent_outputs target_date cs tl ci).plan.length
        = (match cs with
            | some c => c.events.length
            | none => 0)
          + (match tl with
              | some l2 => l2.tasks.length
              | none => 0)
          + (match ci with
              | some c => c.recommendations.length
              | none => 0)
    ∧ (combine_agent_outputs target_date cs tl ci).summary
        = some ("Plan for " ++ fmtDate target_date ++ ". Events: "
            ++ toString (match cs with
                 | some c => c.events.length
                 | none => 0)
            ++ ". Tasks: "
            ++ toString (match tl with
                 | some l2 => l2.tasks.length
                 | none => 0)
            ++ ". Recommendations: "
            ++ toString (match ci with
                 | some c => c.recommendations.length
                 | none => 0)
            ++ ".") := by
  constructor
  · cases cs <;> cases tl <;> cases ci <;>
      simp [combine_agent_outputs, mkConsolidated, eventPlanItems, taskPlanItems,
        recPlanItems, sortTasks] <;> omega
  · cases cs <;> cases tl <;> cases ci <;> rfl

/-- Distinct indices below 1440 get distinct assigned task times: the four
rotation slots are all multiples of four minutes apart, so equal residues
mod 4 force equal slots, and then equal times force equal indices. -/
theorem assignedTaskTime_inj (k l : Nat) (hk : k < 1440) (hl : l < 1440)
    (hne : k ≠ l) : assignedTaskTime k ≠ assignedTaskTime l := by
  have hk4 : k % 4 = 0 ∨ k % 4 = 1 ∨ k % 4 = 2 ∨ k % 4 = 3 := by omega
  have hl4 : l % 4 = 0 ∨ l % 4 = 1 ∨ l % 4 = 2 ∨ l % 4 = 3 := by omega
  have e0 : task_times.getD 0 0 = 32400000000 := rfl
  have e1 : task_times.getD 1 0 = 39600000000 := rfl
  have e2 : task_times.getD 2 0 = 50400000000 := rfl
  have e3 : task_times.getD 3 0 = 57600000000 := rfl
  unfold assignedTaskTime
  have h4 : task_times.length = 4 := rfl
  rw [h4]
  rcases hk4 with h1 | h1 | h1 | h1 <;> rcases hl4 with h2 | h2 | h2 | h2 <;>
    rw [h1, h2] <;> simp only [e0, e1, e2, e3] <;> omega

/-- C3 (amended): tasks are stably sorted by priority rank (urgent, high,
medium, low), and the task at sorted index `k` is assigned the rotation slot
`k % 4` plus `k` minutes — the offset is the overall task index, not the
cycle index — wrapped at midnight; consequently any two of the first 1440
tasks receive distinct times-of-day.  With only a task list present, the
consolidated plan consists exactly of these task items sorted by time. -/
theorem combine_task_assignment (tl2date : PyDate) (tl : PrioritizedTaskListOutput)
    (hlen : tl.tasks.length ≤ 1440) :
    List.Sorted taskLe (sortTasks tl.tasks)
    ∧ (∀ p : Priority, (sortTasks tl.tasks).filter (fun t => t.priority == p)
        = tl.tasks.filter fun t => t.priority == p)
    ∧ (taskPlanItems tl).map (fun it => it.time)
        = (List.range tl.tasks.length).map
            (fun k => (task_times.getD (k % 4) 0 + k * 60000000) % 86400000000)
    ∧ (taskPlanItems tl).map (fun it => (it.item_type, it.details, it.priority))
        = (sortTasks tl.tasks).map
            (fun t => (ItemType.task, PlanDetails.task t, some t.priority))
    ∧ ((taskPlanItems tl).map fun it => it.time).Pairwise (fun a b => a ≠ b)
    ∧ (combine_agent_outputs tl2date none (some tl) none).plan
        = List.insertionSort itemLe (taskPlanItems tl) := by
  have htime : (taskPlanItems tl).map (fun it => it.time)
      = (List.range tl.tasks.length).map assignedTaskTime := by
    rw [taskPlanItems, map_mapIdx]
    rw [mapIdx_const_idx (sortTasks tl.tasks) assignedTaskTime]
    rw [sortTasks, List.length_insertionSort]
  refine ⟨List.sorted_insertionSort taskLe _, ?_, ?_, ?_, ?_, ?_⟩
  · intro p
    refine filter_insertionSort taskLe _ ?_ tl.tasks
    intro x y hx hy
    have hx2 : x.priority = p := by simpa using hx
    have hy2 : y.priority = p := by simpa using hy
    simp [taskLe, hx2, hy2]
  · rw [htime]
    rfl
  · rw [taskPlanItems, map_mapIdx]
    exact mapIdx_const_val _ _ _ fun i a => rfl
  · rw [htime]
    rw [List.pairwise_map]
    refine List.Pairwise.imp_of_mem ?_ (List.pairwise_lt_range _)
    intro a b ha hb hab
    have ha2 : a < tl.tasks.length := List.mem_range.mp ha
    have hb2 : b < tl.tasks.length := List.mem_range.mp hb
    exact assignedTaskTime_inj a b (by omega) (by omega) (Nat.ne_of_lt hab)
  · show (mkConsolidated _ _ _).plan = _
    rw [mkConsolidated]
    rw [show ((match (none : Option CalendarSummaryOutput) with
          | some cs => eventPlanItems cs
          | none => ([] : List PlanItem))
        ++ (match some tl with
             | some tl3 => taskPlanItems tl3
             | none => [])
        ++ (match (none : Option ContextOutput) with
             | some ci => recPlanItems ci
             | none => [])) = taskPlanItems tl by simp]
    exact (List.sorted_insertionSort itemLe _).insertionSort_eq

/-- Counterexample to C3 as stated: with two equal-priority tasks, the claimed
rule (offset = cycle index) would give the second task the raw 11:00 slot,
but the code offsets it by its overall index, giving 11:01. -/
theorem combine_task_assignment_counterexample :
    (taskPlanItems ⟨[⟨"a", Priority.medium, none, none⟩,
        ⟨"b", Priority.medium, none, none⟩]⟩).map (fun it => it.time)
      ≠ (List.range 2).map
          (fun k => (task_times.getD (k % 4) 0 + (k / 4) * 60000000) % 86400000000) := by
  decide

/-- Witness for the amended C3 at a concrete two-task input. -/
theorem combine_task_assignment_witness :
    (⟨[⟨"a", Priority.urgent, none, none⟩, ⟨"b", Priority.low, none, none⟩]⟩ :
        PrioritizedTaskListOutput).tasks.length ≤ 1440
    ∧ List.Sorted taskLe (sortTasks (⟨[⟨"a", Priority.urgent, none, none⟩,
          ⟨"b", Priority.low, none, none⟩]⟩ :
            PrioritizedTaskListOutput).tasks) :=
  ⟨by decide,
    (combine_task_assignment ⟨2025, 4, 15⟩
      ⟨[⟨"a", Priority.urgent, none, none⟩, ⟨"b", Priority.low, none, none⟩]⟩
      (by decide)).1⟩

/-- Inserting into a sorted list that contains a distinguished element `e`
keeps `e`, and removing `e` from the result gives the insertion into
the list without `e`. -/
theorem orderedInsert_middle {α : Type} (r : α → α → Prop) [DecidableRel r]
    [IsTrans α r] (x e : α) :
    ∀ (xs ys : List α), List.Sorted r (xs ++ e :: ys) →
      ∃ xs2 ys2, List.orderedInsert r x (xs ++ e :: ys) = xs2 ++ e :: ys2
        ∧ xs2 ++ ys2 = List.orderedInsert r x (xs ++ ys)
  | [], ys, hs => by
    rw [List.nil_append, List.nil_append]
    simp only [List.orderedInsert]
    by_cases hr : r x e
    · rw [if_pos hr]
      refine ⟨[x], ys, rfl, ?_⟩
      cases ys with
      | nil => rfl
      | cons z zs =>
        have hez : r e z := List.rel_of_sorted_cons hs z (List.mem_cons_self z zs)
        simp only [List.orderedInsert]
        rw [if_pos (IsTrans.trans x e z hr hez)]
        rfl
    · rw [if_neg hr]
      exact ⟨[], List.orderedInsert r x ys, rfl, rfl⟩
  | a :: xs, ys, hs => by
    rw [List.cons_append]
    simp only [List.orderedInsert]
    by_cases hr : r x a
    · rw [if_pos hr, if_pos hr]
      exact ⟨x :: a :: xs, ys, rfl, rfl⟩
    · rw [if_neg hr, if_neg hr]
      have hs2 : List.Sorted r (xs ++ e :: ys) := hs.of_cons
      obtain ⟨xs2, ys2, h1, h2⟩ := orderedInsert_middle r x e xs ys hs2
      refine ⟨a :: xs2, ys2, by rw [h1]; rfl, ?_⟩
      rw [List.cons_append, h2]
      rfl

/-- The stable sort of a list with a distinguished element `e` is the stable
sort of the list without `e`, with `e` spliced in at one position. -/
theorem insertionSort_middle {α : Type} (r : α → α → Prop) [DecidableRel r]
    [IsTotal α r] [IsTrans α r] (e : α) :
    ∀ (l1 l2 : List α),
      ∃ xs ys, List.insertionSort r (l1 ++ e :: l2) = xs ++ e :: ys
        ∧ xs ++ ys = List.insertionSort r (l1 ++ l2)
  | [], l2 => by
    rw [List.nil_append, List.nil_append,
      show List.insertionSort r (e :: l2)
        = List.orderedInsert r e (List.insertionSort r l2) from rfl,
      List.orderedInsert_eq_take_drop]
    exact ⟨_, _, rfl, List.takeWhile_append_dropWhile _ _⟩
  | a :: l1, l2 => by
    obtain ⟨xs, ys, h1, h2⟩ := insertionSort_middle r e l1 l2
    rw [List.cons_append, List.cons_append,
      show List.insertionSort r (a :: (l1 ++ e :: l2))
        = List.orderedInsert r a (List.insertionSort r (l1 ++ e :: l2)) from rfl,
      show List.insertionSort r (a :: (l1 ++ l2))
        = List.orderedInsert r a (List.insertionSort r (l1 ++ l2)) from rfl,
      h1]
    have hsorted : List.Sorted r (xs ++ e :: ys) := by
      rw [← h1]
      exact List.sorted_insertionSort r _
    obtain ⟨xs2, ys2, h3, h4⟩ := orderedInsert_middle r a e xs ys hsorted
    exact ⟨xs2, ys2, h3, by rw [h4, h2]⟩

/-- A degenerate event (end not after start) leaves one free-slot iteration
entirely unchanged: its clamped interval is empty. -/
theorem freeStepM_degenerate (tzi : Option Int) (dayS dayE : PyDT)
    (e : CalendarEvent) (cur : PyDT) (slots : List FreeTimeSlot)
    (hS : dayS.tz = tzi) (hE : dayE.tz = tzi) (he : EvCompat tzi e)
    (hdeg : e.end_time.instKey ≤ e.start_time.instKey) :
    freeStepM tzi dayS dayE e cur slots = .ok (cur, slots) := by
  have hes_tz : (normDT tzi e.start_time).tz = tzi := by
    cases tzi with
    | none => rw [normDT_none]; exact he.1
    | some z => exact normDT_tz_some z _
  have hee_tz : (normDT tzi e.end_time).tz = tzi := by
    cases tzi with
    | none => rw [normDT_none]; exact he.2
    | some z => exact normDT_tz_some z _
  have hes_key : (normDT tzi e.start_time).instKey = e.start_time.instKey := by
    cases tzi with
    | none => rw [normDT_none]
    | some z => exact normDT_instKey_some z _ he.1
  have hee_key : (normDT tzi e.end_time).instKey = e.end_time.instKey := by
    cases tzi with
    | none => rw [normDT_none]
    | some z => exact normDT_instKey_some z _ he.2
  simp only [freeStepM]
  rw [pyMax_ok (normDT tzi e.start_time) dayS (by rw [hes_tz, hS]), exceptBind_ok]
  rw [pyMin_ok (normDT tzi e.end_time) dayE (by rw [hee_tz, hE]), exceptBind_ok]
  set esc := if (normDT tzi e.start_time).instKey < dayS.instKey
    then dayS else normDT tzi e.start_time with hesc_def
  set eec := if dayE.instKey < (normDT tzi e.end_time).instKey
    then dayE else normDT tzi e.end_time with heec_def
  have hesc_tz : esc.tz = tzi := ite_tz _ _ _ hS hes_tz
  have heec_tz : eec.tz = tzi := ite_tz _ _ _ hE hee_tz
  have hesc_key : esc.instKey = max e.start_time.instKey dayS.instKey := by
    rw [hesc_def, ite_lt_instKey_max, hes_key]
  have heec_key : eec.instKey = min e.end_time.instKey dayE.instKey := by
    rw [heec_def, ite_lt_instKey_min, hee_key]
  rw [pyLt_ok esc eec (by rw [hesc_tz, heec_tz]), exceptBind_ok]
  simp only [decide_eq_true_eq]
  rw [if_neg (by rw [hesc_key, heec_key]; omega)]

/-- A degenerate event anywhere in the list leaves the whole free-slot loop
unchanged. -/
theorem freeLoop_skip (tzi : Option Int) (dayS dayE : PyDT)
    (hS : dayS.tz = tzi) (hE : dayE.tz = tzi)
    (e : CalendarEvent) (he : EvCompat tzi e)
    (hdeg : e.end_time.instKey ≤ e.start_time.instKey) :
    ∀ (xs ys : List CalendarEvent) (cur : PyDT) (slots : List FreeTimeSlot),
      cur.tz = tzi → (∀ x ∈ xs, EvCompat tzi x) →
      freeLoop tzi dayS dayE (xs ++ e :: ys) cur slots
        = freeLoop tzi dayS dayE (xs ++ ys) cur slots
  | [], ys, cur, slots, hcur, _ => by
    rw [List.nil_append, List.nil_append, freeLoop,
      freeStepM_degenerate tzi dayS dayE e cur slots hS hE he hdeg, exceptBind_ok]
  | x :: xs, ys, cur, slots, hcur, hxs => by
    obtain ⟨cur1, δ1, hstep, htz1, _, _⟩ :=
      freeStepM_eq tzi dayS dayE x cur slots hS hE hcur (hxs x (by simp))
    rw [List.cons_append, List.cons_append, freeLoop, freeLoop, hstep]
    simp only [exceptBind_ok]
    exact freeLoop_skip tzi dayS dayE hS hE e he hdeg xs ys cur1 (slots ++ δ1) htz1
      (fun y hy => hxs y (by simp [hy]))

/-- A degenerate event overlaps nothing. -/
theorem overlapB_degenerate_left (e f : CalendarEvent)
    (hdeg : e.end_time.instKey ≤ e.start_time.instKey) : overlapB e f = false := by
  simp only [overlapB, evStartPos, evEndPos, decide_eq_false_iff_not]
  omega

/-- Nothing overlaps a degenerate event. -/
theorem overlapB_degenerate_right (f e : CalendarEvent)
    (hdeg : e.end_time.instKey ≤ e.start_time.instKey) : overlapB f e = false := by
  simp only [overlapB, evStartPos, evEndPos, decide_eq_false_iff_not]
  omega

/-- The inner conflict loop is the identity when its pivot overlaps no
remaining event. -/
theorem innerDetectP_all_skip (e : CalendarEvent) :
    ∀ (fs : List CalendarEvent) (acc : List CalendarConflict),
      (∀ f ∈ fs, overlapB e f = false) →
      innerDetectP e fs acc = acc
  | [], _, _ => rfl
  | f :: fs, acc, h => by
    rw [innerDetectP, if_neg (by simp [h f (List.mem_cons_self f fs)])]
    exact innerDetectP_all_skip e fs acc (fun g hg => h g (by simp [hg]))

/-- The inner conflict loop skips over a non-overlapping element of its
remaining list. -/
theorem innerDetectP_middle_skip (x e : CalendarEvent)
    (hov : overlapB x e = false) :
    ∀ (xs ys : List CalendarEvent) (acc : List CalendarConflict),
      innerDetectP x (xs ++ e :: ys) acc = innerDetectP x (xs ++ ys) acc
  | [], ys, acc => by
    rw [List.nil_append, List.nil_append, innerDetectP, if_neg (by simp [hov])]
  | f :: xs, ys, acc => by
    rw [List.cons_append, List.cons_append, innerDetectP, innerDetectP]
    by_cases h1 : overlapB x f = true
    · rw [if_pos h1, if_pos h1]
      by_cases h2 : containsPair acc x f = true
      · rw [if_pos h2, if_pos h2]
        exact innerDetectP_middle_skip x e hov xs ys acc
      · rw [if_neg h2, if_neg h2]
        exact innerDetectP_middle_skip x e hov xs ys (acc ++ [mkConflict x f])
    · rw [if_neg h1, if_neg h1]
      exact innerDetectP_middle_skip x e hov xs ys acc

/-- A degenerate event anywhere in the list leaves the whole conflict scan
unchanged. -/
theorem detectLoopP_skip (e : CalendarEvent)
    (hdeg : e.end_time.instKey ≤ e.start_time.instKey) :
    ∀ (xs ys : List CalendarEvent) (acc : List CalendarConflict),
      detectLoopP (xs ++ e :: ys) acc = detectLoopP (xs ++ ys) acc
  | [], ys, acc => by
    rw [List.nil_append, List.nil_append, detectLoopP,
      innerDetectP_all_skip e ys acc (fun f _ => overlapB_degenerate_left e f hdeg)]
  | x :: xs, ys, acc => by
    rw [List.cons_append, List.cons_append, detectLoopP, detectLoopP,
      innerDetectP_middle_skip x e (overlapB_degenerate_right x e hdeg) xs ys acc]
    exact detectLoopP_skip e hdeg xs ys (innerDetectP x (xs ++ ys) acc)

/-- Every conflict produced by the inner loop was already accumulated or
records an overlapping pair with the pivot. -/
theorem innerDetectP_mem (e : CalendarEvent) :
    ∀ (fs : List CalendarEvent) (acc : List CalendarConflict) (c : CalendarConflict),
      c ∈ innerDetectP e fs acc →
      c ∈ acc ∨ ∃ f, c = mkConflict e f ∧ overlapB e f = true
  | [], _, _, h => Or.inl h
  | f :: fs, acc, c, h => by
    rw [innerDetectP] at h
    by_cases hov : overlapB e f = true
    · rw [if_pos hov] at h
      by_cases hdup : containsPair acc e f = true
      · rw [if_pos hdup] at h
        exact innerDetectP_mem e fs acc c h
      · rw [if_neg hdup] at h
        rcases innerDetectP_mem e fs (acc ++ [mkConflict e f]) c h with h1 | h1
        · rcases List.mem_append.mp h1 with h2 | h2
          · exact Or.inl h2
          · exact Or.inr ⟨f, List.mem_singleton.mp h2, hov⟩
        · exact Or.inr h1
    · rw [if_neg hov] at h
      exact innerDetectP_mem e fs acc c h

/-- Every conflict produced by the conflict scan was already accumulated or
records an overlapping pair. -/
theorem detectLoopP_mem :
    ∀ (evs : List CalendarEvent) (acc : List CalendarConflict) (c : CalendarConflict),
      c ∈ detectLoopP evs acc →
      c ∈ acc ∨ ∃ x y, c = mkConflict x y ∧ overlapB x y = true
  | [], _, _, h => Or.inl h
  | x :: rest, acc, c, h => by
    rw [detectLoopP] at h
    rcases detectLoopP_mem rest _ c h with h1 | h1
    · rcases innerDetectP_mem x rest acc c h1 with h2 | ⟨f, h2, h3⟩
      · exact Or.inl h2
      · exact Or.inr ⟨x, f, h2, h3⟩
    · exact Or.inr h1

/-- On an awareness-uniform list every sorted event is compatible with the
reference offset chosen by `analyze_schedule`. -/
theorem homog_compat (evs : List CalendarEvent) (k : Bool) (hk : HomogK k evs) :
    ∀ e ∈ List.insertionSort evLe evs, EvCompat (tzInfoOfList evs) e := by
  have hLhomog : HomogK k (List.insertionSort evLe evs) := by
    intro e he
    exact hk e (by simpa using he)
  have htzik : ∀ e ∈ List.insertionSort evLe evs,
      (tzInfoOfList evs).isSome = k := by
    intro e he
    cases hLs : List.insertionSort evLe evs with
    | nil => rw [hLs] at he; cases he
    | cons e0 r0 =>
      have h0 := hLhomog e0 (by rw [hLs]; exact List.mem_cons_self _ _)
      rw [tzInfoOfList, hLs]
      exact h0.1
  intro e he
  have hkk := htzik e he
  have heh := hLhomog e he
  cases htzio : tzInfoOfList evs with
  | none =>
    rw [htzio] at hkk
    rw [EvCompat]
    rw [← Option.isNone_iff_eq_none, ← Option.isNone_iff_eq_none]
    constructor
    · rw [Bool.eq_iff_iff] at hkk ⊢
      rw [Option.isNone_iff_eq_none, ← Option.not_isSome_iff_eq_none]
      rw [heh.1, ← hkk]
      simp
    · rw [Bool.eq_iff_iff] at hkk ⊢
      rw [Option.isNone_iff_eq_none, ← Option.not_isSome_iff_eq_none]
      rw [heh.2, ← hkk]
      simp
  | some z =>
    rw [htzio] at hkk
    rw [EvCompat]
    simp only [Option.isSome_some] at hkk
    exact ⟨heh.1.trans hkk.symm, heh.2.trans hkk.symm⟩

/-- The value returned by `analyze_schedule` on an awareness-uniform list, in
terms of a given evaluation of the free-slot loop. -/
theorem analyze_schedule_ok_form (d : PyDate) (evs : List CalendarEvent) (k : Bool)
    (hk : HomogK k evs) (st : PyDT × List FreeTimeSlot)
    (hloop : freeLoop (tzInfoOfList evs) ⟨d, nineAM, tzInfoOfList evs⟩
        ⟨d, fivePM, tzInfoOfList evs⟩ (List.insertionSort evLe evs)
        ⟨d, nineAM, tzInfoOfList evs⟩ [] = .ok st)
    (htz : st.1.tz = tzInfoOfList evs) :
    analyze_schedule d evs = .ok ⟨d, List.insertionSort evLe evs,
      st.2 ++ (if st.1.instKey < (PyDT.mk d fivePM (tzInfoOfList evs)).instKey
          ∧ minSlotMicros
            ≤ (PyDT.mk d fivePM (tzInfoOfList evs)).instKey - st.1.instKey
        then [⟨st.1, ⟨d, fivePM, tzInfoOfList evs⟩,
          ((PyDT.mk d fivePM (tzInfoOfList evs)).instKey - st.1.instKey)
            / microsPerMinute⟩]
        else []),
      detectLoopP (List.insertionSort evLe evs) []⟩ := by
  have hLhomog : HomogK k (List.insertionSort evLe evs) := by
    intro e he
    exact hk e (by simpa using he)
  rw [analyze_schedule, sortEvents_ok evs k hk]
  simp only [exceptBind_ok]
  rw [show tzInfoOf (List.insertionSort evLe evs) = tzInfoOfList evs from rfl]
  rw [hloop]
  simp only [exceptBind_ok]
  rw [trailingSlot_eq ⟨d, fivePM, tzInfoOfList evs⟩ st.1 htz]
  simp only [exceptBind_ok]
  rw [detectLoop_eq k (List.insertionSort evLe evs) [] hLhomog]
  simp only [exceptBind_ok]

/-- C5 (amended): a degenerate event (end not after start) in an
awareness-uniform list never makes `analyze_schedule` crash; the analysis of
the list without it succeeds as well; the conflicts are exactly those with
the event absent, and no reported conflict lists the event; and — provided
the degenerate event does not determine the reference offset (it does
exactly when it sorts first and its offset differs from the one the first
remaining event would supply) — the free slots too are exactly those with
the event absent. -/
theorem analyze_degenerate_zero (d : PyDate) (l1 l2 : List CalendarEvent)
    (e : CalendarEvent) (hH : Homog (l1 ++ e :: l2))
    (hdeg : e.end_time.instKey ≤ e.start_time.instKey) :
    exceptOk (analyze_schedule d (l1 ++ e :: l2)) = true
    ∧ exceptOk (analyze_schedule d (l1 ++ l2)) = true
    ∧ conflictsOf d (l1 ++ e :: l2) = conflictsOf d (l1 ++ l2)
    ∧ (∀ c ∈ conflictsOf d (l1 ++ e :: l2), e ∉ c.conflicting_events)
    ∧ (tzInfoOfList (l1 ++ e :: l2) = tzInfoOfList (l1 ++ l2) →
        freeSlotsOf d (l1 ++ e :: l2) = freeSlotsOf d (l1 ++ l2)) := by
  obtain ⟨k, hk1⟩ : ∃ k, HomogK k (l1 ++ e :: l2) :=
    hH.elim (⟨false, ·⟩) (⟨true, ·⟩)
  have hk2 : HomogK k (l1 ++ l2) := by
    intro x hx
    apply hk1
    rcases List.mem_append.mp hx with h | h
    · exact List.mem_append.mpr (Or.inl h)
    · exact List.mem_append.mpr (Or.inr (List.mem_cons_of_mem e h))
  obtain ⟨xs, ys, hE1, hE2⟩ := insertionSort_middle evLe e l1 l2
  have hcompat1 := homog_compat (l1 ++ e :: l2) k hk1
  have hcompat2 := homog_compat (l1 ++ l2) k hk2
  obtain ⟨cur1, δ1, hloop1, htz1, hf1, hs1, ht1⟩ :=
    freeLoop_eq (tzInfoOfList (l1 ++ e :: l2))
      ⟨d, nineAM, tzInfoOfList (l1 ++ e :: l2)⟩
      ⟨d, fivePM, tzInfoOfList (l1 ++ e :: l2)⟩ rfl rfl
      (List.insertionSort evLe (l1 ++ e :: l2))
      ⟨d, nineAM, tzInfoOfList (l1 ++ e :: l2)⟩ [] rfl hcompat1
  obtain ⟨cur2, δ2, hloop2, htz2, hf2, hs2, ht2⟩ :=
    freeLoop_eq (tzInfoOfList (l1 ++ l2))
      ⟨d, nineAM, tzInfoOfList (l1 ++ l2)⟩
      ⟨d, fivePM, tzInfoOfList (l1 ++ l2)⟩ rfl rfl
      (List.insertionSort evLe (l1 ++ l2))
      ⟨d, nineAM, tzInfoOfList (l1 ++ l2)⟩ [] rfl hcompat2
  have ha1 := analyze_schedule_ok_form d (l1 ++ e :: l2) k hk1 (cur1, [] ++ δ1)
    hloop1 htz1
  have ha2 := analyze_schedule_ok_form d (l1 ++ l2) k hk2 (cur2, [] ++ δ2)
    hloop2 htz2
  have hc1 : conflictsOf d (l1 ++ e :: l2)
      = detectLoopP (List.insertionSort evLe (l1 ++ e :: l2)) [] := by
    unfold conflictsOf
    rw [ha1]
  have hc2 : conflictsOf d (l1 ++ l2)
      = detectLoopP (List.insertionSort evLe (l1 ++ l2)) [] := by
    unfold conflictsOf
    rw [ha2]
  have hcc : detectLoopP (List.insertionSort evLe (l1 ++ e :: l2)) []
      = detectLoopP (List.insertionSort evLe (l1 ++ l2)) [] := by
    rw [hE1, detectLoopP_skip e hdeg xs ys [], hE2]
  refine ⟨by rw [ha1]; rfl, by rw [ha2]; rfl, by rw [hc1, hcc, hc2], ?_, ?_⟩
  · intro c hc
    rw [hc1] at hc
    rcases detectLoopP_mem _ _ c hc with h | ⟨x, y, hcx, hov⟩
    · exact absurd h (List.not_mem_nil c)
    · subst hcx
      intro hmem
      have hmem2 : e ∈ [x, y] := hmem
      simp only [overlapB, evStartPos, evEndPos, decide_eq_true_eq] at hov
      rcases List.mem_cons.mp hmem2 with heq | h3
      · rw [heq] at hdeg
        omega
      · rcases List.mem_cons.mp h3 with heq | h4
        · rw [heq] at hdeg
          omega
        · exact absurd h4 (List.not_mem_nil e)
  · intro htzi
    have hce : EvCompat (tzInfoOfList (l1 ++ e :: l2)) e := by
      apply hcompat1
      rw [hE1]
      exact List.mem_append.mpr (Or.inr (List.mem_cons_self e ys))
    have hxs : ∀ x ∈ xs, EvCompat (tzInfoOfList (l1 ++ e :: l2)) x := by
      intro x hx
      apply hcompat1
      rw [hE1]
      exact List.mem_append.mpr (Or.inl hx)
    have hskip := freeLoop_skip (tzInfoOfList (l1 ++ e :: l2))
      ⟨d, nineAM, tzInfoOfList (l1 ++ e :: l2)⟩
      ⟨d, fivePM, tzInfoOfList (l1 ++ e :: l2)⟩ rfl rfl e hce hdeg xs ys
      ⟨d, nineAM, tzInfoOfList (l1 ++ e :: l2)⟩ [] rfl hxs
    rw [hE1, hskip, hE2, htzi, hloop2] at hloop1
    injection hloop1 with hpair
    rw [Prod.mk.injEq] at hpair
    obtain ⟨hcur, hδ⟩ := hpair
    simp only [List.nil_append] at hδ
    have hv1 : freeSlotsOf d (l1 ++ e :: l2)
        = ([] ++ δ1) ++ (if cur1.instKey
              < (PyDT.mk d fivePM (tzInfoOfList (l1 ++ e :: l2))).instKey
            ∧ minSlotMicros ≤ (PyDT.mk d fivePM
              (tzInfoOfList (l1 ++ e :: l2))).instKey - cur1.instKey
          then [⟨cur1, ⟨d, fivePM, tzInfoOfList (l1 ++ e :: l2)⟩,
            ((PyDT.mk d fivePM (tzInfoOfList (l1 ++ e :: l2))).instKey
              - cur1.instKey) / microsPerMinute⟩]
          else []) := by
      unfold freeSlotsOf
      rw [ha1]
    have hv2 : freeSlotsOf d (l1 ++ l2)
        = ([] ++ δ2) ++ (if cur2.instKey
              < (PyDT.mk d fivePM (tzInfoOfList (l1 ++ l2))).instKey
            ∧ minSlotMicros ≤ (PyDT.mk d fivePM
              (tzInfoOfList (l1 ++ l2))).instKey - cur2.instKey
          then [⟨cur2, ⟨d, fivePM, tzInfoOfList (l1 ++ l2)⟩,
            ((PyDT.mk d fivePM (tzInfoOfList (l1 ++ l2))).instKey
              - cur2.instKey) / microsPerMinute⟩]
          else []) := by
      unfold freeSlotsOf
      rw [ha2]
    rw [hv1, hv2, htzi, hcur, hδ]

/-- Counterexample to C5 as stated: a sole timezone-aware degenerate event
(start 10:00Z, end 09:00Z) is skipped by the free-slot loop yet anchors the
working-hours window in its offset, so the produced free slots carry that
offset and differ from the slots produced with the event absent. -/
theorem analyze_degenerate_counterexample :
    (⟨⟨⟨2025, 4, 15⟩, 36000000000, some 0⟩, ⟨⟨2025, 4, 15⟩, 32400000000, some 0⟩,
        "E", none⟩ : CalendarEvent).end_time.instKey
      ≤ (⟨⟨⟨2025, 4, 15⟩, 36000000000, some 0⟩, ⟨⟨2025, 4, 15⟩, 32400000000, some 0⟩,
        "E", none⟩ : CalendarEvent).start_time.instKey
    ∧ exceptOk (analyze_schedule ⟨2025, 4, 15⟩
        [⟨⟨⟨2025, 4, 15⟩, 36000000000, some 0⟩, ⟨⟨2025, 4, 15⟩, 32400000000, some 0⟩,
          "E", none⟩]) = true
    ∧ freeSlotsOf ⟨2025, 4, 15⟩
        [⟨⟨⟨2025, 4, 15⟩, 36000000000, some 0⟩, ⟨⟨2025, 4, 15⟩, 32400000000, some 0⟩,
          "E", none⟩]
      ≠ freeSlotsOf ⟨2025, 4, 15⟩ [] := by
  decide

/-- Witness for the amended C5: one real event 09:00-10:00 plus a naive
degenerate event 11:00-10:30. -/
theorem analyze_degenerate_witness :
    exceptOk (analyze_schedule ⟨2025, 4, 15⟩
      ([⟨⟨⟨2025, 4, 15⟩, 32400000000, none⟩, ⟨⟨2025, 4, 15⟩, 36000000000, none⟩, "A", none⟩]
        ++ ⟨⟨⟨2025, 4, 15⟩, 39600000000, none⟩, ⟨⟨2025, 4, 15⟩, 37800000000, none⟩, "E", none⟩
        :: [])) = true
    ∧ exceptOk (analyze_schedule ⟨2025, 4, 15⟩
      ([⟨⟨⟨2025, 4, 15⟩, 32400000000, none⟩, ⟨⟨2025, 4, 15⟩, 36000000000, none⟩, "A", none⟩]
        ++ [])) = true
    ∧ conflictsOf ⟨2025, 4, 15⟩
      ([⟨⟨⟨2025, 4, 15⟩, 32400000000, none⟩, ⟨⟨2025, 4, 15⟩, 36000000000, none⟩, "A", none⟩]
        ++ ⟨⟨⟨2025, 4, 15⟩, 39600000000, none⟩, ⟨⟨2025, 4, 15⟩, 37800000000, none⟩, "E", none⟩
        :: [])
      = conflictsOf ⟨2025, 4, 15⟩
      ([⟨⟨⟨2025, 4, 15⟩, 32400000000, none⟩, ⟨⟨2025, 4, 15⟩, 36000000000, none⟩, "A", none⟩]
        ++ [])
    ∧ (∀ c ∈ conflictsOf ⟨2025, 4, 15⟩
        ([⟨⟨⟨2025, 4, 15⟩, 32400000000, none⟩, ⟨⟨2025, 4, 15⟩, 36000000000, none⟩, "A", none⟩]
          ++ ⟨⟨⟨2025, 4, 15⟩, 39600000000, none⟩, ⟨⟨2025, 4, 15⟩, 37800000000, none⟩, "E", none⟩
          :: []),
        (⟨⟨⟨2025, 4, 15⟩, 39600000000, none⟩, ⟨⟨2025, 4, 15⟩, 37800000000, none⟩, "E", none⟩
          : CalendarEvent) ∉ c.conflicting_events)
    ∧ (tzInfoOfList
        ([⟨⟨⟨2025, 4, 15⟩, 32400000000, none⟩, ⟨⟨2025, 4, 15⟩, 36000000000, none⟩, "A", none⟩]
          ++ ⟨⟨⟨2025, 4, 15⟩, 39600000000, none⟩, ⟨⟨2025, 4, 15⟩, 37800000000, none⟩, "E", none⟩
          :: [])
        = tzInfoOfList
        ([⟨⟨⟨2025, 4, 15⟩, 32400000000, none⟩, ⟨⟨2025, 4, 15⟩, 36000000000, none⟩, "A", none⟩]
          ++ []) →
        freeSlotsOf ⟨2025, 4, 15⟩
        ([⟨⟨⟨2025, 4, 15⟩, 32400000000, none⟩, ⟨⟨2025, 4, 15⟩, 36000000000, none⟩, "A", none⟩]
          ++ ⟨⟨⟨2025, 4, 15⟩, 39600000000, none⟩, ⟨⟨2025, 4, 15⟩, 37800000000, none⟩, "E", none⟩
          :: [])
        = freeSlotsOf ⟨2025, 4, 15⟩
        ([⟨⟨⟨2025, 4, 15⟩, 32400000000, none⟩, ⟨⟨2025, 4, 15⟩, 36000000000, none⟩, "A", none⟩]
          ++ [])) :=
  analyze_degenerate_zero ⟨2025, 4, 15⟩
    [⟨⟨⟨2025, 4, 15⟩, 32400000000, none⟩, ⟨⟨2025, 4, 15⟩, 36000000000, none⟩, "A", none⟩]
    []
    ⟨⟨⟨2025, 4, 15⟩, 39600000000, none⟩, ⟨⟨2025, 4, 15⟩, 37800000000, none⟩, "E", none⟩
    (by decide) (by decide)

/-- C6 (amended): whenever no two events share a start time, the whole
analysis — returned summary included — is independent of the input order:
any permutation of the event list yields the identical result (the sorted
events, the time-ordered free slots and the discovery-ordered conflicts, or
the identical `TypeError` on a naive/aware mix). -/
theorem analyze_perm (d : PyDate) (evs evs2 : List CalendarEvent)
    (hperm : evs.Perm evs2)
    (hdist : List.Pairwise
      (fun a b => a.start_time.instKey ≠ b.start_time.instKey) evs) :
    analyze_schedule d evs = analyze_schedule d evs2 := by
  have hany : ∀ f : CalendarEvent → Bool, evs.any f = evs2.any f := by
    intro f
    rw [Bool.eq_iff_iff, List.any_eq_true, List.any_eq_true]
    constructor
    · rintro ⟨x, hx, hfx⟩
      exact ⟨x, hperm.mem_iff.mp hx, hfx⟩
    · rintro ⟨x, hx, hfx⟩
      exact ⟨x, hperm.mem_iff.mpr hx, hfx⟩
  have hdist2 : List.Pairwise
      (fun a b => a.start_time.instKey ≠ b.start_time.instKey) evs2 :=
    (hperm.pairwise_iff (fun h => Ne.symm h)).mp hdist
  have hstrict : ∀ (l : List CalendarEvent),
      List.Pairwise (fun a b => a.start_time.instKey ≠ b.start_time.instKey) l →
      List.Sorted evLt (List.insertionSort evLe l) := by
    intro l hl
    have hle : List.Sorted evLe (List.insertionSort evLe l) :=
      List.sorted_insertionSort evLe l
    have hne : List.Pairwise
        (fun a b => a.start_time.instKey ≠ b.start_time.instKey)
        (List.insertionSort evLe l) :=
      ((List.perm_insertionSort evLe l).pairwise_iff (fun h => Ne.symm h)).mpr hl
    exact (hle.and hne).imp (fun h => lt_of_le_of_ne h.1 h.2)
  have hsorteq : List.insertionSort evLe evs = List.insertionSort evLe evs2 :=
    List.eq_of_perm_of_sorted
      ((List.perm_insertionSort evLe evs).trans
        (hperm.trans (List.perm_insertionSort evLe evs2).symm))
      (hstrict evs hdist) (hstrict evs2 hdist2)
  have hsort : sortEvents evs = sortEvents evs2 := by
    rw [sortEvents, sortEvents, hany (fun e => e.start_time.tz.isNone),
      hany (fun e => e.start_time.tz.isSome), hsorteq]
  rw [analyze_schedule, analyze_schedule, hsort]

/-- Counterexample to C6 as stated: two events with the same start time but
different summaries; swapping their input order swaps their order in the
returned summary's event list, so the output does depend on the input
order (the stable sort preserves the input order of start-time ties). -/
theorem analyze_perm_counterexample :
    ([⟨⟨⟨2025, 4, 15⟩, 34200000000, none⟩, ⟨⟨2025, 4, 15⟩, 36000000000, none⟩, "X", none⟩,
      ⟨⟨⟨2025, 4, 15⟩, 34200000000, none⟩, ⟨⟨2025, 4, 15⟩, 37800000000, none⟩, "Y", none⟩] :
        List CalendarEvent).Perm
      [⟨⟨⟨2025, 4, 15⟩, 34200000000, none⟩, ⟨⟨2025, 4, 15⟩, 37800000000, none⟩, "Y", none⟩,
       ⟨⟨⟨2025, 4, 15⟩, 34200000000, none⟩, ⟨⟨2025, 4, 15⟩, 36000000000, none⟩, "X", none⟩]
    ∧ eventsOf ⟨2025, 4, 15⟩
        [⟨⟨⟨2025, 4, 15⟩, 34200000000, none⟩, ⟨⟨2025, 4, 15⟩, 36000000000, none⟩, "X", none⟩,
         ⟨⟨⟨2025, 4, 15⟩, 34200000000, none⟩, ⟨⟨2025, 4, 15⟩, 37800000000, none⟩, "Y", none⟩]
      ≠ eventsOf ⟨2025, 4, 15⟩
        [⟨⟨⟨2025, 4, 15⟩, 34200000000, none⟩, ⟨⟨2025, 4, 15⟩, 37800000000, none⟩, "Y", none⟩,
         ⟨⟨⟨2025, 4, 15⟩, 34200000000, none⟩, ⟨⟨2025, 4, 15⟩, 36000000000, none⟩, "X", none⟩] :=
  ⟨List.Perm.swap _ _ _, by decide⟩

/-- Witness for the amended C6 at a concrete two-event permutation pair. -/
theorem analyze_perm_witness :
    List.Pairwise
      (fun a b : CalendarEvent => a.start_time.instKey ≠ b.start_time.instKey)
      [⟨⟨⟨2025, 4, 15⟩, 32400000000, none⟩, ⟨⟨2025, 4, 15⟩, 36000000000, none⟩, "A", none⟩,
       ⟨⟨⟨2025, 4, 15⟩, 39600000000, none⟩, ⟨⟨2025, 4, 15⟩, 43200000000, none⟩, "B", none⟩]
    ∧ analyze_schedule ⟨2025, 4, 15⟩
        [⟨⟨⟨2025, 4, 15⟩, 32400000000, none⟩, ⟨⟨2025, 4, 15⟩, 36000000000, none⟩, "A", none⟩,
         ⟨⟨⟨2025, 4, 15⟩, 39600000000, none⟩, ⟨⟨2025, 4, 15⟩, 43200000000, none⟩, "B", none⟩]
      = analyze_schedule ⟨2025, 4, 15⟩
        [⟨⟨⟨2025, 4, 15⟩, 39600000000, none⟩, ⟨⟨2025, 4, 15⟩, 43200000000, none⟩, "B", none⟩,
         ⟨⟨⟨2025, 4, 15⟩, 32400000000, none⟩, ⟨⟨2025, 4, 15⟩, 36000000000, none⟩, "A", none⟩] :=
  ⟨by decide,
    analyze_perm ⟨2025, 4, 15⟩
      [⟨⟨⟨2025, 4, 15⟩, 32400000000, none⟩, ⟨⟨2025, 4, 15⟩, 36000000000, none⟩, "A", none⟩,
       ⟨⟨⟨2025, 4, 15⟩, 39600000000, none⟩, ⟨⟨2025, 4, 15⟩, 43200000000, none⟩, "B", none⟩]
      [⟨⟨⟨2025, 4, 15⟩, 39600000000, none⟩, ⟨⟨2025, 4, 15⟩, 43200000000, none⟩, "B", none⟩,
       ⟨⟨⟨2025, 4, 15⟩, 32400000000, none⟩, ⟨⟨2025, 4, 15⟩, 36000000000, none⟩, "A", none⟩]
      (List.Perm.swap _ _ _) (by decide)⟩

/-- Pydantic event equality componentwise. -/
theorem pyEventEq_iff (a b : CalendarEvent) :
    pyEventEq a b = true ↔
      (a.start_time.tz.isSome = b.start_time.tz.isSome
        ∧ a.start_time.instKey = b.start_time.instKey
        ∧ a.end_time.tz.isSome = b.end_time.tz.isSome
        ∧ a.end_time.instKey = b.end_time.instKey
        ∧ a.summary = b.summary ∧ a.location = b.location) := by
  simp [pyEventEq, pyDTEq, Bool.and_eq_true, beq_iff_eq, and_assoc]

/-- Pydantic event equality is symmetric. -/
theorem pyEventEq_symm (a b : CalendarEvent) : pyEventEq a b = pyEventEq b a := by
  rw [Bool.eq_iff_iff, pyEventEq_iff, pyEventEq_iff]
  constructor
  · rintro ⟨h1, h2, h3, h4, h5, h6⟩
    exact ⟨h1.symm, h2.symm, h3.symm, h4.symm, h5.symm, h6.symm⟩
  · rintro ⟨h1, h2, h3, h4, h5, h6⟩
    exact ⟨h1.symm, h2.symm, h3.symm, h4.symm, h5.symm, h6.symm⟩

/-- Pydantic event equality is transitive. -/
theorem pyEventEq_trans (a b c : CalendarEvent) (h1 : pyEventEq a b = true)
    (h2 : pyEventEq b c = true) : pyEventEq a c = true := by
  rw [pyEventEq_iff] at h1 h2 ⊢
  obtain ⟨u1, u2, u3, u4, u5, u6⟩ := h1
  obtain ⟨v1, v2, v3, v4, v5, v6⟩ := h2
  exact ⟨u1.trans v1, u2.trans v2, u3.trans v3, u4.trans v4, u5.trans v5, u6.trans v6⟩

/-- Python `in` on event lists, elementwise. -/
theorem evIn_iff (e : CalendarEvent) (l : List CalendarEvent) :
    evIn e l = true ↔ ∃ x ∈ l, pyEventEq e x = true := by
  simp [evIn, List.any_eq_true]

/-- The dedup test, elementwise. -/
theorem containsPair_iff (acc : List CalendarConflict) (e f : CalendarEvent) :
    containsPair acc e f = true
      ↔ ∃ c ∈ acc, evIn e c.conflicting_events = true
          ∧ evIn f c.conflicting_events = true := by
  simp [containsPair, List.any_eq_true]

/-- On a pivot and remainder that are pairwise value-distinct and not yet
touched by the accumulator, the inner conflict loop appends exactly one
conflict per overlapping partner, in list order. -/
theorem innerDetectP_eq_filter (e : CalendarEvent) :
    ∀ (fs : List CalendarEvent) (acc : List CalendarConflict),
      (∀ f ∈ fs, containsPair acc e f = false) →
      (∀ f ∈ fs, pyEventEq e f = false) →
      List.Pairwise (fun a b => pyEventEq a b = false) fs →
      innerDetectP e fs acc
        = acc ++ (fs.filter (fun f => overlapB e f)).map (fun f => mkConflict e f)
  | [], acc, _, _, _ => by simp [innerDetectP]
  | f :: fs, acc, hacc, hdist, hpw => by
    rw [innerDetectP]
    by_cases hov : overlapB e f = true
    · rw [if_pos hov,
        if_neg (by simp [hacc f (List.mem_cons_self f fs)])]
      have hacc2 : ∀ g ∈ fs, containsPair (acc ++ [mkConflict e f]) e g = false := by
        intro g hg
        have hng : ¬(containsPair (acc ++ [mkConflict e f]) e g = true) := by
          rw [containsPair_iff]
          rintro ⟨c, hc, hce, hcg⟩
          rcases List.mem_append.mp hc with hc1 | hc1
          · have hfalse := hacc g (List.mem_cons_of_mem f hg)
            exact absurd ((containsPair_iff acc e g).mpr ⟨c, hc1, hce, hcg⟩)
              (by rw [hfalse]; exact Bool.false_ne_true)
          · rw [List.mem_singleton] at hc1
            subst hc1
            obtain ⟨z, hz, hgz⟩ := (evIn_iff g _).mp hcg
            have hz2 : z ∈ [e, f] := hz
            rcases List.mem_cons.mp hz2 with rfl | hz3
            · have hd := hdist g (List.mem_cons_of_mem f hg)
              rw [pyEventEq_symm] at hd
              rw [hd] at hgz
              cases hgz
            · rcases List.mem_cons.mp hz3 with rfl | hz4
              · have hd := List.rel_of_pairwise_cons hpw hg
                rw [pyEventEq_symm] at hd
                rw [hd] at hgz
                cases hgz
              · exact absurd hz4 (List.not_mem_nil z)
        cases hb : containsPair (acc ++ [mkConflict e f]) e g with
        | false => rfl
        | true => exact absurd hb hng
      rw [innerDetectP_eq_filter e fs (acc ++ [mkConflict e f]) hacc2
        (fun g hg => hdist g (List.mem_cons_of_mem f hg)) hpw.of_cons]
      simp [List.filter_cons, hov, List.append_assoc]
    · rw [if_neg hov]
      rw [innerDetectP_eq_filter e fs acc
        (fun g hg => hacc g (List.mem_cons_of_mem f hg))
        (fun g hg => hdist g (List.mem_cons_of_mem f hg)) hpw.of_cons]
      simp [List.filter_cons, hov]

/-- On a pairwise value-distinct list whose accumulated conflicts each touch
at most one value class of the remaining events, the conflict scan appends
exactly one conflict per overlapping `i < j` pair, in discovery order. -/
theorem detectLoopP_eq_pairs :
    ∀ (evs : List CalendarEvent) (acc : List CalendarConflict),
      List.Pairwise (fun a b => pyEventEq a b = false) evs →
      (∀ c ∈ acc, ∀ x ∈ evs, ∀ y ∈ evs,
        evIn x c.conflicting_events = true → evIn y c.conflicting_events = true →
        pyEventEq x y = true) →
      detectLoopP evs acc
        = acc ++ ((ijPairs evs).filter (fun pr => overlapB pr.1 pr.2)).map
            (fun pr => mkConflict pr.1 pr.2)
  | [], acc, _, _ => by simp [detectLoopP, ijPairs]
  | e :: rest, acc, hpw, hacc => by
    rw [detectLoopP]
    have hdist : ∀ f ∈ rest, pyEventEq e f = false :=
      fun f hf => List.rel_of_pairwise_cons hpw hf
    have hfs : ∀ f ∈ rest, containsPair acc e f = false := by
      intro f hf
      have hng : ¬(containsPair acc e f = true) := by
        rw [containsPair_iff]
        rintro ⟨c, hc, hce, hcf⟩
        have := hacc c hc e (List.mem_cons_self e rest)
          f (List.mem_cons_of_mem e hf) hce hcf
        rw [hdist f hf] at this
        cases this
      cases hb : containsPair acc e f with
      | false => rfl
      | true => exact absurd hb hng
    rw [innerDetectP_eq_filter e rest acc hfs hdist hpw.of_cons]
    have hmem_lem : ∀ x ∈ rest, ∀ f : CalendarEvent,
        evIn x (mkConflict e f).conflicting_events = true → pyEventEq x f = true := by
      intro x hx f hex
      obtain ⟨z, hz, hxz⟩ := (evIn_iff x _).mp hex
      have hz2 : z ∈ [e, f] := hz
      rcases List.mem_cons.mp hz2 with rfl | hz3
      · have hd := hdist x hx
        rw [pyEventEq_symm] at hd
        rw [hd] at hxz
        cases hxz
      · rcases List.mem_cons.mp hz3 with rfl | hz4
        · exact hxz
        · exact absurd hz4 (List.not_mem_nil z)
    have hacc2 : ∀ c ∈ acc ++ (rest.filter (fun f => overlapB e f)).map
          (fun f => mkConflict e f),
        ∀ x ∈ rest, ∀ y ∈ rest,
        evIn x c.conflicting_events = true → evIn y c.conflicting_events = true →
        pyEventEq x y = true := by
      intro c hc x hx y hy hex hey
      rcases List.mem_append.mp hc with hc1 | hc1
      · exact hacc c hc1 x (List.mem_cons_of_mem e hx)
          y (List.mem_cons_of_mem e hy) hex hey
      · rw [List.mem_map] at hc1
        obtain ⟨f, hf, hcf⟩ := hc1
        subst hcf
        have hxf := hmem_lem x hx f hex
        have hyf := hmem_lem y hy f hey
        rw [pyEventEq_symm] at hyf
        exact pyEventEq_trans x f y hxf hyf
    rw [detectLoopP_eq_pairs rest
      (acc ++ (rest.filter (fun f => overlapB e f)).map (fun f => mkConflict e f))
      hpw.of_cons hacc2]
    rw [ijPairs, List.filter_append, List.map_append, List.append_assoc]
    rw [List.filter_map, List.map_map]
    rfl

/-- Both components of an `i < j` pair are list members. -/
theorem ijPairs_mem {α : Type} :
    ∀ (l : List α) (pr : α × α), pr ∈ ijPairs l → pr.1 ∈ l ∧ pr.2 ∈ l
  | [], pr, h => absurd h (List.not_mem_nil pr)
  | x :: xs, pr, h => by
    rw [ijPairs] at h
    rcases List.mem_append.mp h with h1 | h1
    · rw [List.mem_map] at h1
      obtain ⟨y, hy, hpy⟩ := h1
      subst hpy
      exact ⟨List.mem_cons_self x xs, List.mem_cons_of_mem x hy⟩
    · obtain ⟨h2, h3⟩ := ijPairs_mem xs pr h1
      exact ⟨List.mem_cons_of_mem x h2, List.mem_cons_of_mem x h3⟩

/-- On a pairwise value-distinct list, distinct `i < j` pairs never coincide
as unordered value pairs. -/
theorem ijPairs_pairwise_ne :
    ∀ (l : List CalendarEvent),
      List.Pairwise (fun a b => pyEventEq a b = false) l →
      List.Pairwise (fun pr qr =>
        ¬((pyEventEq pr.1 qr.1 = true ∧ pyEventEq pr.2 qr.2 = true)
          ∨ (pyEventEq pr.1 qr.2 = true ∧ pyEventEq pr.2 qr.1 = true)))
        (ijPairs l)
  | [], _ => List.Pairwise.nil
  | x :: xs, hpw => by
    rw [ijPairs]
    have hx : ∀ y ∈ xs, pyEventEq x y = false :=
      fun y hy => List.rel_of_pairwise_cons hpw hy
    rw [List.pairwise_append]
    refine ⟨?_, ijPairs_pairwise_ne xs hpw.of_cons, ?_⟩
    · rw [List.pairwise_map]
      refine List.Pairwise.imp_of_mem ?_ hpw.of_cons
      intro y1 y2 hy1 hy2 hne hcon
      rcases hcon with ⟨h1, h2⟩ | ⟨h1, h2⟩
      · rw [hne] at h2
        cases h2
      · rw [hx y2 hy2] at h1
        cases h1
    · intro pr hpr qr hqr
      rw [List.mem_map] at hpr
      obtain ⟨y, hy, hpy⟩ := hpr
      subst hpy
      obtain ⟨hq1, hq2⟩ := ijPairs_mem xs qr hqr
      intro hcon
      rcases hcon with ⟨h1, h2⟩ | ⟨h1, h2⟩
      · rw [hx qr.1 hq1] at h1
        cases h1
      · rw [hx qr.2 hq2] at h1
        cases h1

/-- The recorded conflict determines the ordered pair it came from. -/
theorem mkConflict_inj (a b c d : CalendarEvent)
    (h : mkConflict a b = mkConflict c d) : a = c ∧ b = d := by
  have h2 : (mkConflict a b).conflicting_events
      = (mkConflict c d).conflicting_events := by rw [h]
  have h3 : ([a, b] : List CalendarEvent) = [c, d] := h2
  injection h3 with h4 h5
  injection h5 with h6 _
  exact ⟨h4, h6⟩

/-- C2 (amended): on an awareness-uniform event list with pairwise
value-distinct events, the reported conflicts are exactly one record per
overlapping `i < j` pair of the time-sorted events in discovery order; a
pair of the sorted list is reported iff
`max(start1, start2) < min(end1, end2)` on instants (touching endpoints are
not overlaps); and no unordered value pair is reported twice.  (With
duplicated event values the dedup via membership of both events in an
already-recorded conflict can swallow genuinely overlapping pairs, see the
counterexample.) -/
theorem analyze_conflicts_amended (d : PyDate) (evs : List CalendarEvent)
    (hH : Homog evs)
    (hdist : List.Pairwise (fun a b => pyEventEq a b = false) evs)
    (s : CalendarSummaryOutput) (hs : analyze_schedule d evs = .ok s) :
    s.conflicts = ((ijPairs s.events).filter (fun pr => overlapB pr.1 pr.2)).map
        (fun pr => mkConflict pr.1 pr.2)
    ∧ (∀ pr ∈ ijPairs s.events,
        (mkConflict pr.1 pr.2 ∈ s.conflicts
          ↔ max pr.1.start_time.instKey pr.2.start_time.instKey
              < min pr.1.end_time.instKey pr.2.end_time.instKey))
    ∧ List.Pairwise (fun c1 c2 => ¬ sameValuePair c1 c2) s.conflicts := by
  obtain ⟨s2, hs2, _, hevents, _, _, hconf⟩ := analyze_schedule_eq d evs hH
  rw [hs] at hs2
  injection hs2 with hs2
  subst hs2
  have hdistL : List.Pairwise (fun a b => pyEventEq a b = false)
      (List.insertionSort evLe evs) :=
    ((List.perm_insertionSort evLe evs).pairwise_iff
      (fun h => by rw [pyEventEq_symm]; exact h)).mpr hdist
  have hchar : s.conflicts
      = ((ijPairs (List.insertionSort evLe evs)).filter
          (fun pr => overlapB pr.1 pr.2)).map (fun pr => mkConflict pr.1 pr.2) := by
    rw [hconf, detectLoopP_eq_pairs (List.insertionSort evLe evs) [] hdistL
      (fun c hc => absurd hc (List.not_mem_nil c)), List.nil_append]
  refine ⟨by rw [hchar, hevents], ?_, ?_⟩
  · intro pr hpr
    rw [hevents] at hpr
    constructor
    · intro hmem
      rw [hchar] at hmem
      rw [List.mem_map] at hmem
      obtain ⟨qr, hqr, hq⟩ := hmem
      obtain ⟨h1, h2⟩ := mkConflict_inj _ _ _ _ hq
      have hqf := List.of_mem_filter hqr
      rw [h1, h2] at hqf
      simp only [overlapB, evStartPos, evEndPos, decide_eq_true_eq] at hqf
      exact hqf
    · intro hlt
      rw [hchar, List.mem_map]
      refine ⟨pr, List.mem_filter.mpr ⟨hpr, ?_⟩, rfl⟩
      simp only [overlapB, evStartPos, evEndPos, decide_eq_true_eq]
      exact hlt
  · rw [hchar]
    have hpne := ijPairs_pairwise_ne (List.insertionSort evLe evs) hdistL
    have hfiltered := hpne.filter (fun pr => overlapB pr.1 pr.2)
    rw [List.pairwise_map]
    refine List.Pairwise.imp ?_ hfiltered
    intro pr qr hne
    rintro ⟨a1, b1, a2, b2, he1, he2, hor⟩
    have he1b : ([pr.1, pr.2] : List CalendarEvent) = [a1, b1] := he1
    have he2b : ([qr.1, qr.2] : List CalendarEvent) = [a2, b2] := he2
    injection he1b with u1 u2
    injection u2 with u3 _
    injection he2b with v1 v2
    injection v2 with v3 _
    subst u1
    subst u3
    subst v1
    subst v3
    exact hne hor

/-- Counterexample to C2 as stated: naive events B 08:00-12:00 and two
value-identical copies of A 09:00-10:00.  The two copies of A overlap each
other, yet the only reported conflict is (B, A): once (B, A) is recorded,
the dedup test finds both members of every later pair inside it, so the
overlapping pair (A, A-copy) is never reported. -/
theorem analyze_conflicts_counterexample :
    exceptOk (analyze_schedule ⟨2025, 4, 15⟩
      [⟨⟨⟨2025, 4, 15⟩, 28800000000, none⟩, ⟨⟨2025, 4, 15⟩, 43200000000, none⟩, "B", none⟩,
       ⟨⟨⟨2025, 4, 15⟩, 32400000000, none⟩, ⟨⟨2025, 4, 15⟩, 36000000000, none⟩, "A", none⟩,
       ⟨⟨⟨2025, 4, 15⟩, 32400000000, none⟩, ⟨⟨2025, 4, 15⟩, 36000000000, none⟩, "A", none⟩])
      = true
    ∧ overlapB
        ⟨⟨⟨2025, 4, 15⟩, 32400000000, none⟩, ⟨⟨2025, 4, 15⟩, 36000000000, none⟩, "A", none⟩
        ⟨⟨⟨2025, 4, 15⟩, 32400000000, none⟩, ⟨⟨2025, 4, 15⟩, 36000000000, none⟩, "A", none⟩
      = true
    ∧ conflictsOf ⟨2025, 4, 15⟩
        [⟨⟨⟨2025, 4, 15⟩, 28800000000, none⟩, ⟨⟨2025, 4, 15⟩, 43200000000, none⟩, "B", none⟩,
         ⟨⟨⟨2025, 4, 15⟩, 32400000000, none⟩, ⟨⟨2025, 4, 15⟩, 36000000000, none⟩, "A", none⟩,
         ⟨⟨⟨2025, 4, 15⟩, 32400000000, none⟩, ⟨⟨2025, 4, 15⟩, 36000000000, none⟩, "A", none⟩]
      ≠ []
    ∧ (∀ c ∈ conflictsOf ⟨2025, 4, 15⟩
        [⟨⟨⟨2025, 4, 15⟩, 28800000000, none⟩, ⟨⟨2025, 4, 15⟩, 43200000000, none⟩, "B", none⟩,
         ⟨⟨⟨2025, 4, 15⟩, 32400000000, none⟩, ⟨⟨2025, 4, 15⟩, 36000000000, none⟩, "A", none⟩,
         ⟨⟨⟨2025, 4, 15⟩, 32400000000, none⟩, ⟨⟨2025, 4, 15⟩, 36000000000, none⟩, "A", none⟩],
        (c.conflicting_events.all fun x => pyEventEq x
          ⟨⟨⟨2025, 4, 15⟩, 32400000000, none⟩, ⟨⟨2025, 4, 15⟩, 36000000000, none⟩,
            "A", none⟩) = false) := by
  decide

/-- Witness for the amended C2 at two distinct overlapping naive events. -/
theorem analyze_conflicts_witness :
    Homog
      [⟨⟨⟨2025, 4, 15⟩, 32400000000, none⟩, ⟨⟨2025, 4, 15⟩, 36000000000, none⟩, "A", none⟩,
       ⟨⟨⟨2025, 4, 15⟩, 34200000000, none⟩, ⟨⟨2025, 4, 15⟩, 37800000000, none⟩, "C", none⟩]
    ∧ List.Pairwise (fun a b => pyEventEq a b = false)
      [⟨⟨⟨2025, 4, 15⟩, 32400000000, none⟩, ⟨⟨2025, 4, 15⟩, 36000000000, none⟩, "A", none⟩,
       ⟨⟨⟨2025, 4, 15⟩, 34200000000, none⟩, ⟨⟨2025, 4, 15⟩, 37800000000, none⟩, "C", none⟩]
    ∧ (CalendarSummaryOutput.mk ⟨2025, 4, 15⟩
        [⟨⟨⟨2025, 4, 15⟩, 32400000000, none⟩, ⟨⟨2025, 4, 15⟩, 36000000000, none⟩, "A", none⟩,
         ⟨⟨⟨2025, 4, 15⟩, 34200000000, none⟩, ⟨⟨2025, 4, 15⟩, 37800000000, none⟩, "C", none⟩]
        [⟨⟨⟨2025, 4, 15⟩, 37800000000, none⟩, ⟨⟨2025, 4, 15⟩, 61200000000, none⟩, 390⟩]
        [mkConflict
          ⟨⟨⟨2025, 4, 15⟩, 32400000000, none⟩, ⟨⟨2025, 4, 15⟩, 36000000000, none⟩, "A", none⟩
          ⟨⟨⟨2025, 4, 15⟩, 34200000000, none⟩, ⟨⟨2025, 4, 15⟩, 37800000000, none⟩, "C", none⟩]).conflicts
      = ((ijPairs (CalendarSummaryOutput.mk ⟨2025, 4, 15⟩
        [⟨⟨⟨2025, 4, 15⟩, 32400000000, none⟩, ⟨⟨2025, 4, 15⟩, 36000000000, none⟩, "A", none⟩,
         ⟨⟨⟨2025, 4, 15⟩, 34200000000, none⟩, ⟨⟨2025, 4, 15⟩, 37800000000, none⟩, "C", none⟩]
        [⟨⟨⟨2025, 4, 15⟩, 37800000000, none⟩, ⟨⟨2025, 4, 15⟩, 61200000000, none⟩, 390⟩]
        [mkConflict
          ⟨⟨⟨2025, 4, 15⟩, 32400000000, none⟩, ⟨⟨2025, 4, 15⟩, 36000000000, none⟩, "A", none⟩
          ⟨⟨⟨2025, 4, 15⟩, 34200000000, none⟩, ⟨⟨2025, 4, 15⟩, 37800000000, none⟩,
            "C", none⟩]).events).filter
          (fun pr => overlapB pr.1 pr.2)).map (fun pr => mkConflict pr.1 pr.2) :=
  ⟨by decide, by decide,
    (analyze_conflicts_amended ⟨2025, 4, 15⟩
      [⟨⟨⟨2025, 4, 15⟩, 32400000000, none⟩, ⟨⟨2025, 4, 15⟩, 36000000000, none⟩, "A", none⟩,
       ⟨⟨⟨2025, 4, 15⟩, 34200000000, none⟩, ⟨⟨2025, 4, 15⟩, 37800000000, none⟩, "C", none⟩]
      (by decide) (by decide)
      (CalendarSummaryOutput.mk ⟨2025, 4, 15⟩
        [⟨⟨⟨2025, 4, 15⟩, 32400000000, none⟩, ⟨⟨2025, 4, 15⟩, 36000000000, none⟩, "A", none⟩,
         ⟨⟨⟨2025, 4, 15⟩, 34200000000, none⟩, ⟨⟨2025, 4, 15⟩, 37800000000, none⟩, "C", none⟩]
        [⟨⟨⟨2025, 4, 15⟩, 37800000000, none⟩, ⟨⟨2025, 4, 15⟩, 61200000000, none⟩, 390⟩]
        [mkConflict
          ⟨⟨⟨2025, 4, 15⟩, 32400000000, none⟩, ⟨⟨2025, 4, 15⟩, 36000000000, none⟩, "A", none⟩
          ⟨⟨⟨2025, 4, 15⟩, 34200000000, none⟩, ⟨⟨2025, 4, 15⟩, 37800000000, none⟩, "C", none⟩])
      rfl).1⟩

/-!  Round-trip lemmas for the JSON layer, bottom up: digits, two-, four- and
six-digit fields, ISO times, dates and datetimes, then each model. -/

theorem digit?_digitChar (k : Nat) (hk : k < 10) :
    digit? (digitChar k) = some k := by
  interval_cases k <;> rfl

theorem optBind_some {α β : Type} (a : α) (f : α → Option β) :
    (Option.some a).bind f = f a := rfl

theorem parse2_fmt2L (n : Nat) (hn : n < 100) (rest : List Char) :
    parse2 (fmt2L n ++ rest) = some (n, rest) := by
  show parse2 (digitChar (n / 10) :: digitChar (n % 10) :: rest) = some (n, rest)
  rw [parse2, digit?_digitChar (n / 10) (by omega), digit?_digitChar (n % 10) (by omega)]
  show some (n / 10 * 10 + n % 10, rest) = some (n, rest)
  rw [show n / 10 * 10 + n % 10 = n from by omega]

theorem parse4_fmt4L (n : Nat) (hn : n < 10000) (rest : List Char) :
    parse4 (fmt4L n ++ rest) = some (n, rest) := by
  show parse4 (digitChar (n / 1000) :: digitChar (n / 100 % 10)
    :: digitChar (n / 10 % 10) :: digitChar (n % 10) :: rest) = some (n, rest)
  rw [parse4, digit?_digitChar (n / 1000) (by omega),
    digit?_digitChar (n / 100 % 10) (by omega),
    digit?_digitChar (n / 10 % 10) (by omega),
    digit?_digitChar (n % 10) (by omega)]
  show some (((n / 1000 * 10 + n / 100 % 10) * 10 + n / 10 % 10) * 10 + n % 10, rest)
    = some (n, rest)
  rw [show ((n / 1000 * 10 + n / 100 % 10) * 10 + n / 10 % 10) * 10 + n % 10 = n
    from by omega]

theorem parse6_fmt6L (n : Nat) (hn : n < 1000000) (rest : List Char) :
    parse6 (fmt6L n ++ rest) = some (n, rest) := by
  show parse6 (digitChar (n / 100000) :: digitChar (n / 10000 % 10)
    :: digitChar (n / 1000 % 10) :: digitChar (n / 100 % 10)
    :: digitChar (n / 10 % 10) :: digitChar (n % 10) :: rest) = some (n, rest)
  rw [parse6, digit?_digitChar (n / 100000) (by omega),
    digit?_digitChar (n / 10000 % 10) (by omega),
    digit?_digitChar (n / 1000 % 10) (by omega),
    digit?_digitChar (n / 100 % 10) (by omega),
    digit?_digitChar (n / 10 % 10) (by omega),
    digit?_digitChar (n % 10) (by omega)]
  show some (((((n / 100000 * 10 + n / 10000 % 10) * 10 + n / 1000 % 10) * 10
      + n / 100 % 10) * 10 + n / 10 % 10) * 10 + n % 10, rest) = some (n, rest)
  rw [show ((((n / 100000 * 10 + n / 10000 % 10) * 10 + n / 1000 % 10) * 10
      + n / 100 % 10) * 10 + n / 10 % 10) * 10 + n % 10 = n from by omega]

theorem expect_cons (c : Char) (rest : List Char) :
    expect c (c :: rest) = some rest := by
  rw [expect, if_pos rfl]

theorem timeTail_nil (sec : Nat) : timeTail sec [] = some (sec * 1000000, []) := rfl

theorem timeTail_cons (sec : Nat) (c : Char) (l : List Char) (hc : ¬ c = '.') :
    timeTail sec (c :: l) = some (sec * 1000000, c :: l) := by
  rw [timeTail, if_neg hc]

theorem timeTail_frac (sec us : Nat) (hus : us < 1000000) (rest : List Char) :
    timeTail sec ('.' :: (fmt6L us ++ rest)) = some (sec * 1000000 + us, rest) := by
  rw [timeTail, if_pos rfl, parse6_fmt6L us hus rest, optBind_some]

theorem parseTimePart_timeL (t : Nat) (ht : t < 86400000000) (rest : List Char)
    (hrest : ∀ l, rest ≠ '.' :: l) :
    parseTimePart (timeL t ++ rest) = some (t, rest) := by
  rw [timeL]
  simp only [List.append_assoc, List.cons_append]
  simp only [parseTimePart]
  rw [parse2_fmt2L (t / 3600000000) (by omega)]
  simp only [optBind_some]
  rw [expect_cons]
  simp only [optBind_some]
  rw [parse2_fmt2L (t / 60000000 % 60) (by omega)]
  simp only [optBind_some]
  rw [expect_cons]
  simp only [optBind_some]
  rw [parse2_fmt2L (t / 1000000 % 60) (by omega)]
  simp only [optBind_some]
  rw [if_pos (show _ ∧ _ ∧ _ from ⟨by omega, by omega, by omega⟩)]
  by_cases hz : t % 1000000 = 0
  · rw [if_pos hz, List.nil_append]
    cases hr : rest with
    | nil =>
      rw [timeTail_nil,
        show ((t / 3600000000 * 60 + t / 60000000 % 60) * 60 + t / 1000000 % 60)
          * 1000000 = t from by omega]
    | cons c l =>
      rw [timeTail_cons _ c l (fun hc => hrest l (by rw [hr, hc])),
        show ((t / 3600000000 * 60 + t / 60000000 % 60) * 60 + t / 1000000 % 60)
          * 1000000 = t from by omega]
  · rw [if_neg hz, List.cons_append,
      timeTail_frac _ (t % 1000000) (by omega) rest,
      show ((t / 3600000000 * 60 + t / 60000000 % 60) * 60 + t / 1000000 % 60)
        * 1000000 + t % 1000000 = t from by omega]

theorem parseDatePart_dateL (dd : PyDate) (hWF : dateWF dd = true)
    (rest : List Char) :
    parseDatePart (dateL dd ++ rest) = some (dd, rest) := by
  have h3 : dd.year < 10000 ∧ dd.month < 100 ∧ dd.day < 100 := by
    simpa [dateWF, Bool.and_eq_true, decide_eq_true_eq, and_assoc] using hWF
  rw [dateL]
  simp only [List.append_assoc, List.cons_append]
  simp only [parseDatePart]
  rw [parse4_fmt4L dd.year h3.1]
  simp only [optBind_some]
  rw [expect_cons]
  simp only [optBind_some]
  rw [parse2_fmt2L dd.month h3.2.1]
  simp only [optBind_some]
  rw [expect_cons]
  simp only [optBind_some]
  rw [parse2_fmt2L dd.day h3.2.2]
  simp only [optBind_some]

theorem offL_ne_dot (tz : Option Int) : ∀ l, offL tz ≠ '.' :: l := by
  intro l h
  cases tz with
  | none => simp [offL] at h
  | some z =>
    rw [offL] at h
    by_cases h0 : z = 0
    · rw [if_pos h0] at h
      injection h with hc _
      exact absurd hc (by decide)
    · rw [if_neg h0] at h
      by_cases hneg : z < 0
      · rw [if_pos hneg] at h
        injection h with hc _
        exact absurd hc (by decide)
      · rw [if_neg hneg] at h
        injection h with hc _
        exact absurd hc (by decide)

theorem offTail_neg (l : List Char) :
    offTail ('-' :: l)
      = ((parse2 l).bind fun p1 =>
        (expect ':' p1.2).bind fun p2l =>
        (parse2 p2l).bind fun p2 =>
        if p2.2 = [] then
          some (some ((-1 : Int) * ((p1.1 * 60 + p2.1 : Int)) * 60000000))
        else none) := rfl

theorem offTail_pos (l : List Char) :
    offTail ('+' :: l)
      = ((parse2 l).bind fun p1 =>
        (expect ':' p1.2).bind fun p2l =>
        (parse2 p2l).bind fun p2 =>
        if p2.2 = [] then
          some (some ((1 : Int) * ((p1.1 * 60 + p2.1 : Int)) * 60000000))
        else none) := rfl

theorem offTail_offL (tz : Option Int) (hWF : tzWF tz = true) :
    offTail (offL tz) = some tz := by
  cases tz with
  | none => rfl
  | some z =>
    have hz : z % 60000000 = 0 ∧ z.natAbs < 86400000000 := by
      simpa [tzWF, Bool.and_eq_true, decide_eq_true_eq] using hWF
    rw [offL]
    by_cases h0 : z = 0
    · subst h0
      rw [if_pos rfl]
      rfl
    · rw [if_neg h0]
      by_cases hneg : z < 0
      · rw [if_pos hneg, List.cons_append, offTail_neg]
        rw [parse2_fmt2L (z.natAbs / 3600000000) (by omega)]
        simp only [optBind_some]
        rw [expect_cons]
        simp only [optBind_some]
        rw [show fmt2L (z.natAbs / 60000000 % 60)
            = fmt2L (z.natAbs / 60000000 % 60) ++ ([] : List Char) from by simp,
          parse2_fmt2L (z.natAbs / 60000000 % 60) (by omega) []]
        simp only [optBind_some]
        rw [if_pos (by simp)]
        rw [show (-1 : Int) * (((z.natAbs / 3600000000 : Nat) : Int) * 60
            + ((z.natAbs / 60000000 % 60 : Nat) : Int)) * 60000000 = z from by omega]
      · rw [if_neg hneg, List.cons_append, offTail_pos]
        rw [parse2_fmt2L (z.natAbs / 3600000000) (by omega)]
        simp only [optBind_some]
        rw [expect_cons]
        simp only [optBind_some]
        rw [show fmt2L (z.natAbs / 60000000 % 60)
            = fmt2L (z.natAbs / 60000000 % 60) ++ ([] : List Char) from by simp,
          parse2_fmt2L (z.natAbs / 60000000 % 60) (by omega) []]
        simp only [optBind_some]
        rw [if_pos (by simp)]
        rw [show (1 : Int) * (((z.natAbs / 3600000000 : Nat) : Int) * 60
            + ((z.natAbs / 60000000 % 60 : Nat) : Int)) * 60000000 = z from by omega]

theorem parseDate_dateL (dd : PyDate) (hWF : dateWF dd = true) :
    parseDate (String.mk (dateL dd)) = some dd := by
  simp only [parseDate]
  rw [show dateL dd = dateL dd ++ [] from by simp,
    parseDatePart_dateL dd hWF []]
  simp only [optBind_some]
  rw [if_pos (by simp)]

theorem parseTime_timeL (t : Nat) (ht : t < 86400000000) :
    parseTime (String.mk (timeL t)) = some t := by
  simp only [parseTime]
  rw [show timeL t = timeL t ++ [] from by simp,
    parseTimePart_timeL t ht [] (fun l h => List.noConfusion h)]
  simp only [optBind_some]
  rw [if_pos (by simp)]

theorem parseDT_dtL (dt : PyDT) (hWF : dtWF dt = true) :
    parseDT (String.mk (dtL dt)) = some dt := by
  have h4 : dateWF dt.date = true ∧ 0 ≤ dt.tod ∧ dt.tod < 86400000000
      ∧ tzWF dt.tz = true := by
    simpa [dtWF, Bool.and_eq_true, decide_eq_true_eq, and_assoc] using hWF
  simp only [parseDT]
  rw [dtL]
  simp only [List.append_assoc, List.cons_append]
  rw [parseDatePart_dateL dt.date h4.1]
  simp only [optBind_some]
  rw [expect_cons]
  simp only [optBind_some]
  rw [parseTimePart_timeL dt.tod.toNat (by omega) (offL dt.tz) (offL_ne_dot dt.tz)]
  simp only [optBind_some]
  rw [offTail_offL dt.tz h4.2.2.2]
  simp only [optBind_some]
  rw [show ((dt.tod.toNat : Int)) = dt.tod from Int.toNat_of_nonneg h4.2.1]

theorem jToOptStr_jOf (o : Option String) : jToOptStr (jOfOptStr o) = some o := by
  cases o <;> rfl

theorem jToOptDate_of (o : Option PyDate) (h : optB dateWF o = true) :
    jToOptDate (jOfOptDate o) = some o := by
  cases o with
  | none => rfl
  | some dd =>
    show (parseDate (String.mk (dateL dd))).bind (fun x => some (some x))
      = some (some dd)
    rw [parseDate_dateL dd (by simpa [optB] using h)]
    rfl

theorem jToOptTime_of (o : Option Nat) (h : optB timeWF o = true) :
    jToOptTime (jOfOptTime o) = some o := by
  cases o with
  | none => rfl
  | some t =>
    show (parseTime (String.mk (timeL t))).bind (fun x => some (some x))
      = some (some t)
    rw [parseTime_timeL t (by simpa [optB, timeWF, decide_eq_true_eq] using h)]
    rfl

theorem jToOptDT_of (o : Option PyDT) (h : optB dtWF o = true) :
    jToOptDT (jOfOptDT o) = some o := by
  cases o with
  | none => rfl
  | some dt =>
    show (parseDT (String.mk (dtL dt))).bind (fun x => some (some x))
      = some (some dt)
    rw [parseDT_dtL dt (by simpa [optB] using h)]
    rfl

theorem jToOptNum_of (o : Option Int) :
    jToOptNum (jOfOptNum o) = some o := by
  cases o <;> rfl

theorem strPriority_rt (p : Priority) : strPriority (priorityStr p) = some p := by
  cases p <;> rfl

theorem strItemType_rt (ty : ItemType) : strItemType (itemTypeStr ty) = some ty := by
  cases ty <;> rfl

theorem strRecType_rt (rt : RecType) : strRecType (recTypeStr rt) = some rt := by
  cases rt <;> rfl

theorem strTrafficCond_rt (cd : TrafficCond) :
    strTrafficCond (trafficCondStr cd) = some cd := by
  cases cd <;> rfl

theorem jToCalendarEvent_jOf (e : CalendarEvent) (h : eventWF e = true) :
    jToCalendarEvent (jOfCalendarEvent e) = some e := by
  have h2 : dtWF e.start_time = true ∧ dtWF e.end_time = true := by
    simpa [eventWF, Bool.and_eq_true] using h
  show ((parseDT (String.mk (dtL e.start_time))).bind fun st =>
      (parseDT (String.mk (dtL e.end_time))).bind fun en =>
      (jToOptStr (jOfOptStr e.location)).bind fun lo =>
      some ⟨st, en, e.summary, lo⟩) = some e
  rw [parseDT_dtL e.start_time h2.1]
  simp only [optBind_some]
  rw [parseDT_dtL e.end_time h2.2]
  simp only [optBind_some]
  rw [jToOptStr_jOf e.location]
  rfl

theorem jToEmailTask_jOf (t : EmailTask) (h : taskWF t = true) :
    jToEmailTask (jOfEmailTask t) = some t := by
  show ((strPriority (priorityStr t.priority)).bind fun p =>
      (jToOptDate (jOfOptDate t.due_date)).bind fun dd =>
      (jToOptStr (jOfOptStr t.source_email_id)).bind fun src =>
      some (EmailTask.mk t.description p dd src)) = some t
  rw [strPriority_rt t.priority]
  simp only [optBind_some]
  rw [jToOptDate_of t.due_date (by simpa [taskWF] using h)]
  simp only [optBind_some]
  rw [jToOptStr_jOf t.source_email_id]
  rfl

theorem jToWeather_jOf (w : WeatherInfo) (h : weatherWF w = true) :
    jToWeather (jOfWeather w) = some w := by
  show ((jToOptTime (jOfOptTime w.time)).bind fun t =>
      (jToOptNum (jOfOptNum w.temperature_celsius)).bind fun x =>
      (jToOptStr (jOfOptStr w.location)).bind fun lo =>
      some (WeatherInfo.mk t w.description x lo)) = some w
  rw [jToOptTime_of w.time (by simpa [weatherWF] using h)]
  simp only [optBind_some]
  rw [jToOptNum_of w.temperature_celsius]
  simp only [optBind_some]
  rw [jToOptStr_jOf w.location]
  rfl

theorem jToTraffic_jOf (t : TrafficInfo) : jToTraffic (jOfTraffic t) = some t := by
  show ((strTrafficCond (trafficCondStr t.condition)).bind fun cd =>
      (jToOptStr (jOfOptStr t.route_description)).bind fun ro =>
      (jToOptNum (jOfOptNum t.delay_minutes)).bind fun de =>
      (jToOptStr (jOfOptStr t.recommendation)).bind fun re =>
      some (TrafficInfo.mk ro de cd re)) = some t
  rw [strTrafficCond_rt t.condition]
  simp only [optBind_some]
  rw [jToOptStr_jOf t.route_description]
  simp only [optBind_some]
  rw [jToOptNum_of t.delay_minutes]
  simp only [optBind_some]
  rw [jToOptStr_jOf t.recommendation]
  rfl

theorem jToRecDetails_jOf (rd : RecDetails) (h : recDetailsWF rd = true) :
    jToRecDetails (jOfRecDetails rd) = some rd := by
  cases rd with
  | weather w =>
    show jToRecDetails (jOfWeather w) = some (RecDetails.weather w)
    simp only [jToRecDetails]
    rw [jToWeather_jOf w (by simpa [recDetailsWF] using h)]
  | traffic t =>
    show jToRecDetails (jOfTraffic t) = some (RecDetails.traffic t)
    simp only [jToRecDetails]
    rw [show jToWeather (jOfTraffic t) = none from rfl, jToTraffic_jOf t]
  | text s => rfl

theorem jToRec_jOf (r : ContextRecommendation) (h : recWF r = true) :
    jToRec (jOfRec r) = some r := by
  have h2 : recDetailsWF r.details = true ∧ optB dtWF r.impact_time = true := by
    simpa [recWF, Bool.and_eq_true] using h
  show ((strRecType (recTypeStr r.type)).bind fun rt =>
      (jToRecDetails (jOfRecDetails r.details)).bind fun de =>
      (jToOptDT (jOfOptDT r.impact_time)).bind fun it =>
      some (ContextRecommendation.mk rt de it)) = some r
  rw [strRecType_rt r.type]
  simp only [optBind_some]
  rw [jToRecDetails_jOf r.details h2.1]
  simp only [optBind_some]
  rw [jToOptDT_of r.impact_time h2.2]
  rfl

theorem jToPlanDetails_jOf (pd : PlanDetails) (h : planDetailsWF pd = true) :
    jToPlanDetails (jOfPlanDetails pd) = some pd := by
  cases pd with
  | ev e =>
    show jToPlanDetails (jOfCalendarEvent e) = some (PlanDetails.ev e)
    simp only [jToPlanDetails]
    rw [jToCalendarEvent_jOf e (by simpa [planDetailsWF] using h)]
  | task t =>
    show jToPlanDetails (jOfEmailTask t) = some (PlanDetails.task t)
    simp only [jToPlanDetails]
    rw [show jToCalendarEvent (jOfEmailTask t) = none from rfl,
      jToEmailTask_jOf t (by simpa [planDetailsWF] using h)]
  | rcmd r =>
    show jToPlanDetails (jOfRec r) = some (PlanDetails.rcmd r)
    simp only [jToPlanDetails]
    rw [show jToCalendarEvent (jOfRec r) = none from rfl,
      show jToEmailTask (jOfRec r) = none from rfl,
      jToRec_jOf r (by simpa [planDetailsWF] using h)]
  | text s => rfl

theorem jToPlanItem_jOf (it : PlanItem) (h : itemWF it = true) :
    jToPlanItem (jOfPlanItem it) = some it := by
  obtain ⟨tm, ty, de, pr⟩ := it
  have h2 : timeWF tm = true ∧ planDetailsWF de = true := by
    simpa [itemWF, Bool.and_eq_true] using h
  cases pr with
  | none =>
    show ((parseTime (String.mk (timeL tm))).bind fun t =>
        (strItemType (itemTypeStr ty)).bind fun ity =>
        (jToPlanDetails (jOfPlanDetails de)).bind fun dets =>
        ((some none : Option (Option Priority))).bind fun pr2 =>
        some (PlanItem.mk t ity dets pr2)) = some (PlanItem.mk tm ty de none)
    rw [parseTime_timeL tm (by simpa [timeWF, decide_eq_true_eq] using h2.1)]
    simp only [optBind_some]
    rw [strItemType_rt ty]
    simp only [optBind_some]
    rw [jToPlanDetails_jOf de h2.2]
    rfl
  | some p =>
    show ((parseTime (String.mk (timeL tm))).bind fun t =>
        (strItemType (itemTypeStr ty)).bind fun ity =>
        (jToPlanDetails (jOfPlanDetails de)).bind fun dets =>
        ((strPriority (priorityStr p)).bind fun q => some (some q)).bind fun pr2 =>
        some (PlanItem.mk t ity dets pr2)) = some (PlanItem.mk tm ty de (some p))
    rw [parseTime_timeL tm (by simpa [timeWF, decide_eq_true_eq] using h2.1)]
    simp only [optBind_some]
    rw [strItemType_rt ty]
    simp only [optBind_some]
    rw [jToPlanDetails_jOf de h2.2]
    simp only [optBind_some]
    rw [strPriority_rt p]
    rfl

theorem parseItems_map (items : List PlanItem) (h : items.all itemWF = true) :
    parseItems (items.map jOfPlanItem) = some items := by
  induction items with
  | nil => rfl
  | cons it its ih =>
    rw [List.all_cons, Bool.and_eq_true] at h
    rw [List.map_cons, parseItems, jToPlanItem_jOf it h.1]
    simp only [optBind_some]
    rw [ih h.2]
    rfl

/-- C9: serializing a daily plan to its JSON form and re-validating that JSON
yields the identical plan.  The `sort_plan_by_time` validator re-sorts the
already-sorted plan stably (a no-op); every field — dates, times with
sub-second precision, timezone offsets, optional fields and union-typed
detail payloads — parses back to its exact value. -/
theorem plan_json_roundtrip (c : ConsolidatedDailyPlanOutput)
    (hWF : planWF c = true) (hsorted : List.Sorted itemLe c.plan) :
    jToConsolidated (jOfConsolidated c) = some c := by
  obtain ⟨d, items, s⟩ := c
  have h2 : dateWF d = true ∧ items.all itemWF = true := by
    simpa [planWF, Bool.and_eq_true] using hWF
  have hsorted2 : List.Sorted itemLe items := hsorted
  show ((parseDate (String.mk (dateL d))).bind fun dd =>
      (parseItems (items.map jOfPlanItem)).bind fun its =>
      (jToOptStr (jOfOptStr s)).bind fun s2 =>
      some (mkConsolidated dd its s2)) = some ⟨d, items, s⟩
  rw [parseDate_dateL d h2.1]
  simp only [optBind_some]
  rw [parseItems_map items h2.2]
  simp only [optBind_some]
  rw [jToOptStr_jOf s]
  simp only [optBind_some]
  show some (⟨d, List.insertionSort itemLe items, s⟩ : ConsolidatedDailyPlanOutput)
    = some ⟨d, items, s⟩
  rw [hsorted2.insertionSort_eq]

/-- Witness for C9 at a one-item plan whose event carries a `+02:00` offset
and a sub-second plan-item time. -/
theorem plan_json_roundtrip_witness :
    planWF (ConsolidatedDailyPlanOutput.mk ⟨2025, 4, 15⟩
      [⟨32400123456, ItemType.event, PlanDetails.ev
        ⟨⟨⟨2025, 4, 15⟩, 32400123456, some 7200000000⟩,
         ⟨⟨2025, 4, 15⟩, 36000000000, some 7200000000⟩, "A", none⟩, none⟩]
      (some "x")) = true
    ∧ List.Sorted itemLe (ConsolidatedDailyPlanOutput.mk ⟨2025, 4, 15⟩
      [⟨32400123456, ItemType.event, PlanDetails.ev
        ⟨⟨⟨2025, 4, 15⟩, 32400123456, some 7200000000⟩,
         ⟨⟨2025, 4, 15⟩, 36000000000, some 7200000000⟩, "A", none⟩, none⟩]
      (some "x")).plan
    ∧ jToConsolidated (jOfConsolidated (ConsolidatedDailyPlanOutput.mk ⟨2025, 4, 15⟩
      [⟨32400123456, ItemType.event, PlanDetails.ev
        ⟨⟨⟨2025, 4, 15⟩, 32400123456, some 7200000000⟩,
         ⟨⟨2025, 4, 15⟩, 36000000000, some 7200000000⟩, "A", none⟩, none⟩]
      (some "x")))
      = some (ConsolidatedDailyPlanOutput.mk ⟨2025, 4, 15⟩
      [⟨32400123456, ItemType.event, PlanDetails.ev
        ⟨⟨⟨2025, 4, 15⟩, 32400123456, some 7200000000⟩,
         ⟨⟨2025, 4, 15⟩, 36000000000, some 7200000000⟩, "A", none⟩, none⟩]
      (some "x")) :=
  ⟨by decide, by decide,
    plan_json_roundtrip (ConsolidatedDailyPlanOutput.mk ⟨2025, 4, 15⟩
      [⟨32400123456, ItemType.event, PlanDetails.ev
        ⟨⟨⟨2025, 4, 15⟩, 32400123456, some 7200000000⟩,
         ⟨⟨2025, 4, 15⟩, 36000000000, some 7200000000⟩, "A", none⟩, none⟩]
      (some "x")) (by decide) (by decide)⟩

end SmartPlanner
